import Mathlib

/-!
Verification of the Semantica core library (glyph / DotId annotation system).

The TypeScript sources are shallowly embedded: text is `List Char`
(Unicode code points; every character handled by the patterns below is in
the Basic Multilingual Plane, so code-point indexing agrees with the
JavaScript UTF-16 indexing on all characters the patterns can touch),
JavaScript `Map`/`Set` objects are embedded as association lists / lists
with insertion-order semantics, and fallible lookups return `Option`.
-/

namespace Semantica

/-! ## Character classes (from `dotid/primitives.ts` and the regexes) -/

/-- JavaScript `\w` character class: `[A-Za-z0-9_]` (the regexes in the
source do not set a flag that would widen it). -/
def isWordCh (c : Char) : Bool := c.isAlphanum || c == '_'

/-- `DOT_CHARS` from `primitives.ts`: the three dot primitives. -/
def isDotCh (c : Char) : Bool := c == '•' || c == '○' || c == '⦿'

/-- `GLYPH_SYMBOLS` from `glyphs/definitions.ts`: the 22 glyph symbols,
in object-key order. -/
def GLYPH_SYMBOLS : List Char :=
  ['↑', '↓', '▲', '▼', '◇', '¿', '⊗', '⇄', '→', '↻',
   '⌂', '■', '§', '—', '⚠', 'ת', '★', '✓', '←', '≈', '⦿', '⌁']

def isGlyphCh (c : Char) : Bool := GLYPH_SYMBOLS.contains c

/-- The hard-coded negative-lookbehind character class of the standalone
reference pattern in `dotid/parser.ts` (it spells `ת` twice). -/
def REF_EXCLUSION : List Char :=
  ['■', '⌂', '→', '←', '↑', '↓', '▲', '▼', '◇', '¿', '⊗', '⇄', '↻', '⌁',
   '§', '—', '⚠', 'ת', 'ת', '★', '✓', '≈', '⦿']

/-! ## DotId codec (`dotid/primitives.ts`) -/

structure DotId where
  value : Nat
  signature : List Char
  primitives : List Char
  isCluster : Bool
deriving DecidableEq

/-- `DOT_IDS`: the ten DotId definitions, verbatim. -/
def DOT_IDS : List DotId :=
  [ ⟨1, ['•'], ['•'], false⟩,
    ⟨2, ['•', '•'], ['•', '•'], false⟩,
    ⟨3, ['•', '•', '•'], ['•', '•', '•'], true⟩,
    ⟨4, ['•', '○'], ['•', '○'], false⟩,
    ⟨5, ['○'], ['○'], false⟩,
    ⟨6, ['○', '•'], ['○', '•'], false⟩,
    ⟨7, ['○', '•', '•'], ['○', '•', '•'], true⟩,
    ⟨8, ['•', '•', '⦿'], ['•', '•', '⦿'], true⟩,
    ⟨9, ['•', '⦿'], ['•', '⦿'], false⟩,
    ⟨10, ['⦿'], ['⦿'], false⟩ ]

/-- `SIGNATURE_TO_DOTID` lookup (a `Map` keyed by the distinct signatures;
first match equals map lookup). -/
def getDotIdBySignature (sig : List Char) : Option DotId :=
  DOT_IDS.find? (fun d => d.signature == sig)

/-- `VALUE_TO_DOTID` lookup. -/
def getDotIdByValue (v : Nat) : Option DotId :=
  DOT_IDS.find? (fun d => d.value == v)

/-- `isValidSignature`. -/
def isValidSignature (sig : List Char) : Bool :=
  (getDotIdBySignature sig).isSome

/-- List-prefix test (used only to state the spec's prefix-freedom claim). -/
def sigLeads : List Char → List Char → Bool
  | [], _ => true
  | _ :: _, [] => false
  | a :: as, b :: bs => a == b && sigLeads as bs

/-! ## Source positions (`offsetToPosition` in `dotid/parser.ts` and
`parser/tokenizer.ts`, identical in both files) -/

structure SourcePosition where
  line : Nat
  column : Nat
  offset : Nat
  length : Nat
deriving DecidableEq

/-- Walk the first `offset` characters counting newlines, exactly as the
source loop `for (i = 0; i < offset && i < text.length; i++)` does. -/
def offsetToPosition (text : List Char) (offset len : Nat) : SourcePosition :=
  let lc := (text.take offset).foldl
    (fun lc c => if c == '\n' then (lc.1 + 1, 0) else (lc.1, lc.2 + 1)) (0, 0)
  ⟨lc.1, lc.2, offset, len⟩

/-! ## DotId parsing (`dotid/parser.ts`, `parseDotIds`)

Each of the source's seven regex passes is embedded as a deterministic
matcher `try…At` applied at every position by the generic scanner
`scanPat`.  The regexes are backtracking-free in the sense that a greedy
run (`[^"]+`, `\w+`, `[•○⦿]+`) can never be shortened successfully, so
"maximal run followed by the required delimiter" is their exact
semantics.  `exec` on a `g`-regex resumes searching at the end of the
previous match, which is what `scanPat` does. -/

inductive AttachmentType
  | term
  | glyph
  | reference
deriving DecidableEq

structure DotIdMatch where
  raw : List Char
  term : Option (List Char)
  glyph : Option Char
  dotId : DotId
  position : SourcePosition
  attachmentType : AttachmentType
deriving DecidableEq

/-- A raw regex match (before codec validation and overlap filtering):
the capture groups plus the total matched length. -/
structure RawCand where
  kind : AttachmentType
  term : Option (List Char)
  glyph : Option Char
  sig : List Char
  len : Nat
deriving DecidableEq

/-- Does the character before the match position block the single-word
term pattern?  (Negative lookbehind `(?<!["\w])`.) -/
def prevBlocksWord : Option Char → Bool
  | none => false
  | some c => c == '"' || isWordCh c

/-- Negative lookbehind of the standalone reference pattern
`(?<!["\w■⌂→←↑↓▲▼◇¿⊗⇄↻⌁§—⚠תת★✓≈⦿])`. -/
def prevBlocksRef : Option Char → Bool
  | none => false
  | some c => c == '"' || isWordCh c || REF_EXCLUSION.contains c

/-- Pattern 1, `/"([^"]+)"\{([•○⦿]+)\}/gu`, applied at the head of the
remaining text (no lookbehind). -/
def tryQuotedAt (_ : Option Char) (cs : List Char) : Option RawCand :=
  match cs with
  | '"' :: rest =>
    let tm := rest.takeWhile (fun c => c != '"')
    if tm.isEmpty then none else
    match rest.drop tm.length with
    | '"' :: '{' :: rest2 =>
      let sg := rest2.takeWhile isDotCh
      if sg.isEmpty then none else
      match rest2.drop sg.length with
      | '}' :: _ => some ⟨.term, some tm, none, sg, tm.length + sg.length + 4⟩
      | _ => none
    | _ => none
  | _ => none

/-- Pattern 2, `/(?<!["\w])(\w+)\{([•○⦿]+)\}/gu`. -/
def trySingleAt (prev : Option Char) (cs : List Char) : Option RawCand :=
  if prevBlocksWord prev then none else
  let tm := cs.takeWhile isWordCh
  if tm.isEmpty then none else
  match cs.drop tm.length with
  | '{' :: rest2 =>
    let sg := rest2.takeWhile isDotCh
    if sg.isEmpty then none else
    match rest2.drop sg.length with
    | '}' :: _ => some ⟨.term, some tm, none, sg, tm.length + sg.length + 2⟩
    | _ => none
  | _ => none

/-- Pattern 3, `` `([<glyphs>])\{([•○⦿]+)\}` `` with the full glyph
alphabet as the anchor class (no lookbehind). -/
def tryGlyphAt (_ : Option Char) (cs : List Char) : Option RawCand :=
  match cs with
  | g :: '{' :: rest2 =>
    if isGlyphCh g then
      let sg := rest2.takeWhile isDotCh
      if sg.isEmpty then none else
      match rest2.drop sg.length with
      | '}' :: _ => some ⟨.glyph, none, some g, sg, sg.length + 3⟩
      | _ => none
    else none
  | _ => none

/-- Pattern 4, the standalone reference `/(?<!…)\{([•○⦿]+)\}/gu`. -/
def tryRefAt (prev : Option Char) (cs : List Char) : Option RawCand :=
  if prevBlocksRef prev then none else
  match cs with
  | '{' :: rest2 =>
    let sg := rest2.takeWhile isDotCh
    if sg.isEmpty then none else
    match rest2.drop sg.length with
    | '}' :: _ => some ⟨.reference, none, none, sg, sg.length + 2⟩
    | _ => none
  | _ => none

/-- Line terminators recognized by a multiline `$` anchor. -/
def isLineEnd : Option Char → Bool
  | none => true
  | some c => c == '\n' || c == '\r' || c == '\u2028' || c == '\u2029'

/-- Incomplete pattern `/(?<!["\w])(\w+)\{([•○⦿]+)$/gmu` (live typing,
no closing brace, dots run to end of line). -/
def tryIncSingleAt (prev : Option Char) (cs : List Char) : Option RawCand :=
  if prevBlocksWord prev then none else
  let tm := cs.takeWhile isWordCh
  if tm.isEmpty then none else
  match cs.drop tm.length with
  | '{' :: rest2 =>
    let sg := rest2.takeWhile isDotCh
    if sg.isEmpty then none else
    if isLineEnd (rest2.drop sg.length).head? then
      some ⟨.term, some tm, none, sg, tm.length + sg.length + 1⟩
    else none
  | _ => none

/-- Incomplete pattern `/"([^"]+)"\{([•○⦿]+)$/gmu`. -/
def tryIncQuotedAt (_ : Option Char) (cs : List Char) : Option RawCand :=
  match cs with
  | '"' :: rest =>
    let tm := rest.takeWhile (fun c => c != '"')
    if tm.isEmpty then none else
    match rest.drop tm.length with
    | '"' :: '{' :: rest2 =>
      let sg := rest2.takeWhile isDotCh
      if sg.isEmpty then none else
      if isLineEnd (rest2.drop sg.length).head? then
        some ⟨.term, some tm, none, sg, tm.length + sg.length + 3⟩
      else none
    | _ => none
  | _ => none

/-- Incomplete pattern `` `([<glyphs>])\{([•○⦿]+)$` `` (`gmu`). -/
def tryIncGlyphAt (_ : Option Char) (cs : List Char) : Option RawCand :=
  match cs with
  | g :: '{' :: rest2 =>
    if isGlyphCh g then
      let sg := rest2.takeWhile isDotCh
      if sg.isEmpty then none else
      if isLineEnd (rest2.drop sg.length).head? then
        some ⟨.glyph, none, some g, sg, sg.length + 2⟩
      else none
    else none
  | _ => none

/-- Generic scan loop for one `g`-regex: try the matcher at each
position; on a match, emit it and resume at the match end (the character
before the new position is the last matched character).  The fuel is
always instantiated with more than the text length, which suffices since
every step consumes at least one character. -/
def scanPat (tryAt : Option Char → List Char → Option RawCand) :
    Nat → Option Char → List Char → Nat → List (RawCand × Nat)
  | 0, _, _, _ => []
  | _ + 1, _, [], _ => []
  | fuel + 1, prev, c :: rest, pos =>
    match tryAt prev (c :: rest) with
    | some cand =>
      (cand, pos) ::
        scanPat tryAt fuel (((c :: rest).take cand.len).getLast? )
          (rest.drop (cand.len - 1)) (pos + cand.len)
    | none => scanPat tryAt fuel (some c) rest (pos + 1)

/-- `match.index`-containment test used by the source's `alreadyMatched`
check: is `pos` strictly inside the span of an accumulated match? -/
def overlapsAt (ms : List DotIdMatch) (pos : Nat) : Bool :=
  ms.any (fun m =>
    m.position.offset ≤ pos && pos < m.position.offset + m.position.length)

/-- Build the `DotIdMatch` object pushed by the source. -/
def mkMatch (text : List Char) (cand : RawCand) (pos : Nat) (d : DotId) :
    DotIdMatch :=
  { raw := (text.drop pos).take cand.len
    term := cand.term
    glyph := cand.glyph
    dotId := d
    position := offsetToPosition text pos cand.len
    attachmentType := cand.kind }

/-- Process one pass's raw matches: validate the signature through the
codec, apply the `alreadyMatched` start-containment check (pattern 1
performs no such check, hence the flag), and push. -/
def pushCands (text : List Char) (chk : Bool) :
    List DotIdMatch → List (RawCand × Nat) → List DotIdMatch
  | acc, [] => acc
  | acc, (cand, pos) :: rest =>
    match getDotIdBySignature cand.sig with
    | none => pushCands text chk acc rest
    | some d =>
      if chk && overlapsAt acc pos then pushCands text chk acc rest
      else pushCands text chk (acc ++ [mkMatch text cand pos d]) rest

/-- Stable insertion sort (JavaScript `Array.prototype.sort` is stable):
`lt y x` means `y` must stay in front of `x`; an element being inserted
comes earlier in the original array than the already-sorted ones, so on
ties it goes first. -/
def insertStable (lt : α → α → Bool) (x : α) : List α → List α
  | [] => [x]
  | y :: ys => if lt y x then y :: insertStable lt x ys else x :: y :: ys

def sortStable (lt : α → α → Bool) : List α → List α
  | [] => []
  | x :: xs => insertStable lt x (sortStable lt xs)

def ltOffM (a b : DotIdMatch) : Bool := a.position.offset < b.position.offset

/-- The candidates of each pass over the whole text. -/
def candsQuoted (text : List Char) : List (RawCand × Nat) :=
  scanPat tryQuotedAt (text.length + 1) none text 0

def candsSingle (text : List Char) : List (RawCand × Nat) :=
  scanPat trySingleAt (text.length + 1) none text 0

def candsGlyph (text : List Char) : List (RawCand × Nat) :=
  scanPat tryGlyphAt (text.length + 1) none text 0

def candsRef (text : List Char) : List (RawCand × Nat) :=
  scanPat tryRefAt (text.length + 1) none text 0

def candsIncSingle (text : List Char) : List (RawCand × Nat) :=
  scanPat tryIncSingleAt (text.length + 1) none text 0

def candsIncQuoted (text : List Char) : List (RawCand × Nat) :=
  scanPat tryIncQuotedAt (text.length + 1) none text 0

def candsIncGlyph (text : List Char) : List (RawCand × Nat) :=
  scanPat tryIncGlyphAt (text.length + 1) none text 0

/-- The accumulated matches after the four complete-pattern passes. -/
def stage1 (text : List Char) : List DotIdMatch :=
  pushCands text false [] (candsQuoted text)

def stage2 (text : List Char) : List DotIdMatch :=
  pushCands text true (stage1 text) (candsSingle text)

def stage3 (text : List Char) : List DotIdMatch :=
  pushCands text true (stage2 text) (candsGlyph text)

def stage4 (text : List Char) : List DotIdMatch :=
  pushCands text true (stage3 text) (candsRef text)

/-- The three extra passes of `includeIncomplete` mode. -/
def stage7 (text : List Char) : List DotIdMatch :=
  pushCands text true
    (pushCands text true
      (pushCands text true (stage4 text) (candsIncSingle text))
      (candsIncQuoted text))
    (candsIncGlyph text)

/-- `parseDotIds(text, includeIncomplete)`: the seven passes followed by
the stable sort on offsets. -/
def parseDotIds (text : List Char) (includeIncomplete : Bool) :
    List DotIdMatch :=
  sortStable ltOffM (if includeIncomplete then stage7 text else stage4 text)

/-! ## Declarations and references (`dotid/parser.ts`) -/

structure DotDeclaration where
  term : List Char
  dotId : DotId
  position : SourcePosition
  isDeclaration : Bool
deriving DecidableEq

structure DotReference where
  dotId : DotId
  position : SourcePosition
  declaration : Option DotDeclaration
deriving DecidableEq

/-- `match.term || match.glyph || '(glyph)'` — JavaScript `||` treats the
empty string and `null` alike as falsy (both pattern groups are in fact
non-empty whenever present). -/
def declLabel (m : DotIdMatch) : List Char :=
  match m.term with
  | some t => if t.isEmpty then
      (match m.glyph with
       | some g => [g]
       | none => '(' :: 'g' :: 'l' :: 'y' :: 'p' :: 'h' :: [')'])
    else t
  | none =>
    match m.glyph with
    | some g => [g]
    | none => '(' :: 'g' :: 'l' :: 'y' :: 'p' :: 'h' :: [')']

/-- Loop body of `extractDeclarations`: `seen` is the `Set` of DotId
values already declared, `acc` the output array. -/
def extractDeclsAux : List Nat → List DotDeclaration → List DotIdMatch →
    List DotDeclaration
  | _, acc, [] => acc
  | seen, acc, m :: rest =>
    if m.attachmentType ≠ AttachmentType.reference ∧
        ¬ seen.contains m.dotId.value then
      extractDeclsAux (seen ++ [m.dotId.value])
        (acc ++ [⟨declLabel m, m.dotId, m.position, true⟩]) rest
    else extractDeclsAux seen acc rest

/-- `extractDeclarations`: first non-reference match per DotId value, in
input order. -/
def extractDeclarations (ms : List DotIdMatch) : List DotDeclaration :=
  extractDeclsAux [] [] ms

/-- `declarationMap.get(value)` where the map was filled by a loop of
`set` calls: the **last** declaration with that value wins. -/
def declMapGet (decls : List DotDeclaration) (v : Nat) :
    Option DotDeclaration :=
  decls.reverse.find? (fun d => d.dotId.value == v)

/-- `declaredIds.has(value)`. -/
def declaredHas (decls : List DotDeclaration) (v : Nat) : Bool :=
  decls.any (fun d => d.dotId.value == v)

/-- Loop body of `extractReferences`. -/
def refStep (decls : List DotDeclaration) (acc : List DotReference)
    (m : DotIdMatch) : List DotReference :=
  if m.attachmentType = AttachmentType.reference then
    acc ++ [⟨m.dotId, m.position, declMapGet decls m.dotId.value⟩]
  else if declaredHas decls m.dotId.value then
    match declMapGet decls m.dotId.value with
    | some decl =>
      if decl.position.offset < m.position.offset then
        acc ++ [⟨m.dotId, m.position, some decl⟩]
      else acc
    | none => acc
  else acc

/-- `extractReferences`: standalone matches are always references;
a term/glyph match whose value is declared and whose offset is strictly
after the declaration's offset is also a reference. -/
def extractReferences (ms : List DotIdMatch) (decls : List DotDeclaration) :
    List DotReference :=
  ms.foldl (refStep decls) []

/-- `buildDeclaration(term, dotId)`: quote multi-word terms. -/
def buildDeclaration (term : List Char) (d : DotId) : List Char :=
  if term.contains ' ' then
    '"' :: term ++ '"' :: '{' :: d.signature ++ ['}']
  else
    term ++ '{' :: d.signature ++ ['}']

/-- `buildGlyphAttachment(glyph, dotId)`. -/
def buildGlyphAttachment (g : Char) (d : DotId) : List Char :=
  g :: '{' :: d.signature ++ ['}']

/-- `buildReference(dotId)`. -/
def buildReference (d : DotId) : List Char :=
  '{' :: d.signature ++ ['}']

/-! ## Validator (`dotid/validator.ts`, `validateDotIds`) -/

inductive Severity
  | error
  | warning
  | info
deriving DecidableEq

structure ParseError where
  message : String
  position : SourcePosition
  severity : Severity
deriving DecidableEq

structure ValidationResult where
  isValid : Bool
  orphanedReferences : List DotReference
  duplicateDeclarations : List DotDeclaration
  errors : List ParseError
  warnings : List ParseError
deriving DecidableEq

/-- The duplicate-declaration error message. -/
def dupMessage (decl existing : DotDeclaration) : String :=
  "Duplicate declaration: DotId " ++ toString decl.dotId.value ++ " (" ++
    String.mk decl.dotId.signature ++ ") was already declared as \"" ++
    String.mk existing.term ++ "\" at line " ++
    toString (existing.position.line + 1)

/-- The orphaned-reference error message. -/
def orphanMessage (ref : DotReference) : String :=
  "Orphaned reference: DotId " ++ toString ref.dotId.value ++ " (" ++
    String.mk ref.dotId.signature ++ ") is used but never declared"

/-- The unused-declaration warning message. -/
def unusedMessage (decl : DotDeclaration) : String :=
  "Unused declaration: \"" ++ String.mk decl.term ++ "\" (" ++
    String.mk decl.dotId.signature ++ ") is declared but never referenced"

/-- First pass of `validateDotIds`: fill `declaredIds` (first declaration
per value wins) and collect duplicate declarations and their errors. -/
def dupPass : List (Nat × DotDeclaration) × List DotDeclaration ×
    List ParseError → List DotDeclaration →
    List (Nat × DotDeclaration) × List DotDeclaration × List ParseError
  | st, [] => st
  | (declared, dups, errs), decl :: rest =>
    match (declared.find? (fun e => e.1 == decl.dotId.value)) with
    | some e =>
      dupPass (declared, dups ++ [decl],
        errs ++ [⟨dupMessage decl e.2, decl.position, Severity.error⟩]) rest
    | none =>
      dupPass (declared ++ [(decl.dotId.value, decl)], dups, errs) rest

/-- `validateDotIds(declarations, references)`. -/
def validateDotIds (declarations : List DotDeclaration)
    (references : List DotReference) : ValidationResult :=
  let st := dupPass ([], [], []) declarations
  let declared := st.1
  let duplicateDeclarations := st.2.1
  let dupErrors := st.2.2
  let orphanSt := references.foldl
    (fun (acc : List DotReference × List ParseError) ref =>
      if declared.any (fun e => e.1 == ref.dotId.value) then acc
      else (acc.1 ++ [ref],
        acc.2 ++ [⟨orphanMessage ref, ref.position, Severity.error⟩]))
    ([], [])
  let errors := dupErrors ++ orphanSt.2
  let warnings := declared.foldl
    (fun (ws : List ParseError) e =>
      if references.any (fun r => r.dotId.value == e.1) then ws
      else ws ++ [⟨unusedMessage e.2, e.2.position, Severity.warning⟩])
    []
  { isValid := errors.isEmpty
    orphanedReferences := orphanSt.1
    duplicateDeclarations := duplicateDeclarations
    errors := errors
    warnings := warnings }

/-! ## DotId counter (`dotid/counter.ts`)

The class is embedded as a record; `Set`/`Map` fields become
insertion-ordered lists, mutating methods become functions returning the
new record. -/

structure DotIdCounter where
  usedIds : List Nat
  declarations : List (Nat × DotDeclaration)
deriving DecidableEq

def DotIdCounter.empty : DotIdCounter := ⟨[], []⟩

/-- `addDeclaration`: `Set.add`, then `Map.set` only if the key is new
("Only store the first declaration for each DotId"). -/
def DotIdCounter.addDeclaration (c : DotIdCounter) (d : DotDeclaration) :
    DotIdCounter :=
  { usedIds :=
      if c.usedIds.contains d.dotId.value then c.usedIds
      else c.usedIds ++ [d.dotId.value]
    declarations :=
      if (c.declarations.map Prod.fst).contains d.dotId.value then
        c.declarations
      else c.declarations ++ [(d.dotId.value, d)] }

/-- The constructor `new DotIdCounter(declarations)`. -/
def mkCounter (ds : List DotDeclaration) : DotIdCounter :=
  ds.foldl DotIdCounter.addDeclaration DotIdCounter.empty

/-- `removeId(value)`. -/
def DotIdCounter.removeId (c : DotIdCounter) (v : Nat) : DotIdCounter :=
  { usedIds := c.usedIds.filter (fun w => w ≠ v)
    declarations := c.declarations.filter (fun e => e.1 ≠ v) }

/-- `isUsed(value)`. -/
def DotIdCounter.isUsed (c : DotIdCounter) (v : Nat) : Bool :=
  c.usedIds.contains v

/-- `getNextAvailable()`: ascending scan `for (value = 1; value <= 10)`. -/
def DotIdCounter.getNextAvailable (c : DotIdCounter) : Option DotId :=
  (([1, 2, 3, 4, 5, 6, 7, 8, 9, 10] : List Nat).find?
    (fun v => !(c.usedIds.contains v))).bind getDotIdByValue

/-- `getUsedCount()` (`Set.size`). -/
def DotIdCounter.getUsedCount (c : DotIdCounter) : Nat := c.usedIds.length

/-- `getDeclaration(value)`. -/
def DotIdCounter.getDeclaration (c : DotIdCounter) (v : Nat) :
    Option DotDeclaration :=
  (c.declarations.find? (fun e => e.1 == v)).map Prod.snd

/-- `getAllDeclarations()` (`Map.values()`, insertion order). -/
def DotIdCounter.getAllDeclarations (c : DotIdCounter) :
    List DotDeclaration :=
  c.declarations.map Prod.snd

/-- `isApproachingCapacity()`: 7 or more used. -/
def DotIdCounter.isApproachingCapacity (c : DotIdCounter) : Bool :=
  7 ≤ c.usedIds.length

/-- `isAtCapacity()`: all 10 used. -/
def DotIdCounter.isAtCapacity (c : DotIdCounter) : Bool :=
  10 ≤ c.usedIds.length

/-- `reset()`. -/
def DotIdCounter.reset (_ : DotIdCounter) : DotIdCounter :=
  DotIdCounter.empty

/-- `snapshot()`: used values plus all declarations. -/
def DotIdCounter.snapshot (c : DotIdCounter) :
    List Nat × List DotDeclaration :=
  (c.usedIds, c.getAllDeclarations)

/-- `restore(snapshot)`: reset, then re-add every snapshot declaration
(the snapshot's `usedIds` array is not consulted). -/
def DotIdCounter.restore (_ : DotIdCounter)
    (s : List Nat × List DotDeclaration) : DotIdCounter :=
  s.2.foldl DotIdCounter.addDeclaration DotIdCounter.empty

/-! ## Glyph registry (`glyphs/definitions.ts`) -/

inductive GlyphCategory
  | level
  | magnitude
  | epistemic
  | structural
  | causal
  | centrality
  | provenance
  | boundary
  | salience
  | framing
  | agency
deriving DecidableEq

/-- The category color palette. -/
def categoryColor : GlyphCategory → String
  | .level => "#6366f1"
  | .magnitude => "#f59e0b"
  | .epistemic => "#10b981"
  | .structural => "#8b5cf6"
  | .causal => "#ef4444"
  | .centrality => "#3b82f6"
  | .provenance => "#6b7280"
  | .boundary => "#f97316"
  | .salience => "#eab308"
  | .framing => "#14b8a6"
  | .agency => "#ec4899"

structure Glyph where
  symbol : Char
  name : String
  category : GlyphCategory
  description : String
  pair : Option Char
  color : String
  isBase : Bool
deriving DecidableEq

/-- `GLYPHS`: all 22 glyph records, in object-key order. -/
def GLYPHS : List Glyph :=
  [ ⟨'↑', "Abstraction", .level, "Zoom out, general principle", some '↓',
      categoryColor .level, true⟩,
    ⟨'↓', "Concretization", .level, "Zoom in, specific instance", some '↑',
      categoryColor .level, false⟩,
    ⟨'▲', "Increase", .magnitude, "Intensify, strengthen", some '▼',
      categoryColor .magnitude, true⟩,
    ⟨'▼', "Decrease", .magnitude, "Weaken, attenuate", some '▲',
      categoryColor .magnitude, false⟩,
    ⟨'◇', "Hypothesis", .epistemic, "Tentative answer offered", some '¿',
      categoryColor .epistemic, true⟩,
    ⟨'¿', "Inquiry", .epistemic, "Open question, no answer yet", some '◇',
      categoryColor .epistemic, false⟩,
    ⟨'⊗', "Interaction", .structural, "Coupling, co-determining factors",
      some '⇄', categoryColor .structural, true⟩,
    ⟨'⇄', "Contrast", .structural, "Comparison, examine side by side",
      some '⊗', categoryColor .structural, false⟩,
    ⟨'→', "Causation", .causal, "A influences or produces B", some '↻',
      categoryColor .causal, true⟩,
    ⟨'↻', "Feedback", .causal, "Effect returns to influence cause",
      some '→', categoryColor .causal, false⟩,
    ⟨'⌂', "Core Schema", .centrality, "Conceptual home, organizing idea",
      some '■', categoryColor .centrality, true⟩,
    ⟨'■', "Definition", .centrality, "This term means this here",
      some '⌂', categoryColor .centrality, false⟩,
    ⟨'§', "Sourced", .provenance, "Comes from elsewhere, inherited",
      some '—', categoryColor .provenance, true⟩,
    ⟨'—', "Self-originated", .provenance, "Reasoned or observed here",
      some '§', categoryColor .provenance, false⟩,
    ⟨'⚠', "Caution", .boundary, "Exception, boundary case", some 'ת',
      categoryColor .boundary, true⟩,
    ⟨'ת', "Completion", .boundary, "Hard limit, end condition, seal",
      some '⚠', categoryColor .boundary, false⟩,
    ⟨'★', "Anchor", .salience, "Worth remembering, retrieval anchor",
      some '✓', categoryColor .salience, true⟩,
    ⟨'✓', "Accepted", .salience, "High confidence, reliable", some '★',
      categoryColor .salience, false⟩,
    ⟨'←', "Precedent", .framing, "Past, historical context", some '≈',
      categoryColor .framing, true⟩,
    ⟨'≈', "Analogy", .framing, "Understand via similarity", some '←',
      categoryColor .framing, false⟩,
    ⟨'⦿', "Intent", .agency, "Directed purpose, aim, telos", some '⌁',
      categoryColor .agency, true⟩,
    ⟨'⌁', "Execution", .agency, "Enacted will, action taken", some '⦿',
      categoryColor .agency, false⟩ ]

/-- `getGlyph(symbol)` (object-key lookup; symbols are distinct). -/
def getGlyph (c : Char) : Option Glyph :=
  GLYPHS.find? (fun g => g.symbol == c)

/-- `isGlyph(char)`. -/
def isGlyph (c : Char) : Bool := (getGlyph c).isSome

/-- `getGlyphsByCategory(category)`. -/
def getGlyphsByCategory (cat : GlyphCategory) : List Glyph :=
  GLYPHS.filter (fun g => g.category == cat)

/-! ## Compounds (`glyphs/compounds.ts`) -/

inductive CompoundCategory
  | agency
  | epistemic
  | structural
deriving DecidableEq

structure GlyphCompound where
  symbols : List Char
  components : List Char
  meaning : String
  compoundCategory : CompoundCategory
deriving DecidableEq

/-- `COMPOUNDS`: the 13 compounds, in object-key order. -/
def COMPOUNDS : List GlyphCompound :=
  [ ⟨['⦿', '⌁'], ['⦿', '⌁'], "Intent oriented toward action", .agency⟩,
    ⟨['⌁', '⦿'], ['⌁', '⦿'], "Purposeful execution", .agency⟩,
    ⟨['⌁', '↻'], ['⌁', '↻'], "Practice (repeated execution)", .agency⟩,
    ⟨['⦿', '↑'], ['⦿', '↑'], "Abstract purpose / telos", .agency⟩,
    ⟨['⦿', '↓'], ['⦿', '↓'], "Concrete aim / specific goal", .agency⟩,
    ⟨['⦿', '⚠'], ['⦿', '⚠'], "Bounded intent (purpose with limits)",
      .agency⟩,
    ⟨['◇', '→'], ['◇', '→'],
      "Hypothetical causation (\"if A then B, tentatively\")", .epistemic⟩,
    ⟨['¿', '→'], ['¿', '→'], "Question about causation", .epistemic⟩,
    ⟨['◇', '★'], ['◇', '★'],
      "Anchored hypothesis (tentative but worth keeping)", .epistemic⟩,
    ⟨['✓', '§'], ['✓', '§'], "Verified source", .epistemic⟩,
    ⟨['⌂', '→'], ['⌂', '→'], "Schema produces (organizing idea leads to...)",
      .structural⟩,
    ⟨['↑', '⌂'], ['↑', '⌂'], "Meta-schema / abstract principle",
      .structural⟩,
    ⟨['↓', '■'], ['↓', '■'], "Concrete definition", .structural⟩ ]

/-- `COMPOUNDS[candidate]` object lookup. -/
def getCompound (cs : List Char) : Option GlyphCompound :=
  COMPOUNDS.find? (fun c => c.symbols == cs)

/-- `parseCompoundAt(text, position)` given the remaining suffix: try the
3-character slice first, then the 2-character one.  Near the end of the
text `slice` simply returns the shorter remainder, but the reported
consumed length is still 3 (resp. 2), faithfully to the source. -/
def parseCompoundAt (cs : List Char) : Option (GlyphCompound × Nat) :=
  match getCompound (cs.take 3) with
  | some c => some (c, 3)
  | none =>
    match getCompound (cs.take 2) with
    | some c => some (c, 2)
    | none => none

/-! ## Hebrew micro-glyphs (`glyphs/hebrew.ts`) -/

structure HebrewMicroGlyph where
  letter : Char
  bias : String
  description : String
deriving DecidableEq

/-- `HEBREW_GLYPHS`, in object-key order. -/
def HEBREW_GLYPHS : List HebrewMicroGlyph :=
  [ ⟨'א', "First principle", "Source, origin, primordial"⟩,
    ⟨'ב', "Context", "Container, dwelling, \"in\""⟩,
    ⟨'ג', "Movement", "Transition, going, becoming"⟩,
    ⟨'ו', "Connection", "Linking, \"and\", continuation"⟩,
    ⟨'ה', "Emphasis", "Disclosure, \"behold\", revelation"⟩,
    ⟨'ז', "Distinction", "Cut, separation, differentiation"⟩,
    ⟨'ח', "Enclosure", "Protected interior, fence, boundary"⟩,
    ⟨'י', "Seed", "Essence, point, beginning"⟩,
    ⟨'ל', "Orientation", "Toward, learning, direction"⟩,
    ⟨'מ', "Process", "Flow, transformation, water"⟩ ]

def getHebrewGlyph (c : Char) : Option HebrewMicroGlyph :=
  HEBREW_GLYPHS.find? (fun h => h.letter == c)

def isHebrewGlyph (c : Char) : Bool := (getHebrewGlyph c).isSome

/-! ## Tokenizer (`parser/tokenizer.ts`) -/

inductive TokenType
  | glyph
  | compound
  | hebrew
  | dotid_declaration
  | dotid_reference
  | text
deriving DecidableEq

inductive TokenValue
  | glyphVal : Glyph → TokenValue
  | compoundVal : GlyphCompound → TokenValue
  | hebrewVal : HebrewMicroGlyph → TokenValue
  | declVal : DotDeclaration → TokenValue
  | refVal : DotReference → TokenValue
deriving DecidableEq

structure Token where
  type : TokenType
  raw : List Char
  position : SourcePosition
  value : Option TokenValue
deriving DecidableEq

/-- Membership in the `dotIdRanges` occupancy set. -/
def inDotRanges (dms : List DotIdMatch) (k : Nat) : Bool :=
  dms.any (fun m =>
    m.position.offset ≤ k && k < m.position.offset + m.position.length)

/-- `isInsideDotIdRange(start, length, ranges)`. -/
def isInsideDotIdRange (dms : List DotIdMatch) (start len : Nat) : Bool :=
  (List.range len).any (fun j => inDotRanges dms (start + j))

/-- The token pushed for one DotId match in `tokenize`'s first pass
(the declaration-value fallback here is `''`, not `'(glyph)'`). -/
def dotIdToken (m : DotIdMatch) : Token :=
  if m.attachmentType ≠ AttachmentType.reference then
    { type := .dotid_declaration
      raw := m.raw
      position := m.position
      value := some (.declVal
        ⟨(match m.term with
          | some t => if t.isEmpty then
              (match m.glyph with | some g => [g] | none => [])
            else t
          | none => match m.glyph with | some g => [g] | none => []),
         m.dotId, m.position, true⟩) }
  else
    { type := .dotid_reference
      raw := m.raw
      position := m.position
      value := some (.refVal ⟨m.dotId, m.position, none⟩) }

/-- The glyph/Hebrew fallback at one scan position (runs when no compound
is taken). -/
def singleTokenAt (text : List Char) (pos : Nat) (c : Char) :
    Option Token :=
  match getGlyph c with
  | some g => some ⟨.glyph, [c], offsetToPosition text pos 1,
      some (.glyphVal g)⟩
  | none =>
    match getHebrewGlyph c with
    | some h => some ⟨.hebrew, [c], offsetToPosition text pos 1,
        some (.hebrewVal h)⟩
    | none => none

/-- Second pass of `tokenize`: scan for compounds, glyphs and Hebrew
letters outside the DotId ranges.  Structured exactly like the source
`while` loop; the fuel is instantiated above the text length. -/
def scanTok (text : List Char) (dms : List DotIdMatch) :
    Nat → List Char → Nat → List Token
  | 0, _, _ => []
  | _ + 1, [], _ => []
  | fuel + 1, c :: rest, pos =>
    if inDotRanges dms pos then scanTok text dms fuel rest (pos + 1) else
    match parseCompoundAt (c :: rest) with
    | some (comp, len) =>
      if isInsideDotIdRange dms pos len then
        match singleTokenAt text pos c with
        | some t => t :: scanTok text dms fuel rest (pos + 1)
        | none => scanTok text dms fuel rest (pos + 1)
      else
        ⟨.compound, comp.symbols, offsetToPosition text pos len,
          some (.compoundVal comp)⟩ ::
          scanTok text dms fuel (rest.drop (len - 1)) (pos + len)
    | none =>
      match singleTokenAt text pos c with
      | some t => t :: scanTok text dms fuel rest (pos + 1)
      | none => scanTok text dms fuel rest (pos + 1)

def ltOffT (a b : Token) : Bool := a.position.offset < b.position.offset

/-- `tokenize(text)`. -/
def tokenize (text : List Char) : List Token :=
  let dms := parseDotIds text false
  sortStable ltOffT
    (dms.map dotIdToken ++ scanTok text dms (text.length + 1) text 0)

/-! ## Full parse (`parse` in `parser/tokenizer.ts`) -/

structure ParseResult where
  tokens : List Token
  declarations : List DotDeclaration
  references : List DotReference
  glyphs : List (TokenValue × SourcePosition)
  errors : List ParseError
deriving DecidableEq

/-- Per-line glyph counting over the glyph/compound tokens, as an
insertion-ordered map `line ↦ count`. -/
def glyphsPerLine (gs : List (TokenValue × SourcePosition)) :
    List (Nat × Nat) :=
  gs.foldl
    (fun acc g =>
      let line := g.2.line
      match acc.find? (fun e => e.1 == line) with
      | some _ => acc.map (fun e => if e.1 == line then (e.1, e.2 + 1) else e)
      | none => acc ++ [(line, 1)])
    []

def lineWarnMessage (line count : Nat) : String :=
  "Line " ++ toString (line + 1) ++ " has " ++ toString count ++
    " glyphs (max 3 per statement)"

/-- `parse(text)`: tokenize, extract, validate, collect glyph usages and
the per-line soft-limit warnings. -/
def parse (text : List Char) : ParseResult :=
  let tokens := tokenize text
  let dotIdMatches := parseDotIds text false
  let declarations := extractDeclarations dotIdMatches
  let references := extractReferences dotIdMatches declarations
  let validation := validateDotIds declarations references
  let glyphs := tokens.foldl
    (fun acc t =>
      if t.type = TokenType.glyph ∨ t.type = TokenType.compound then
        match t.value with
        | some v => acc ++ [(v, t.position)]
        | none => acc
      else acc)
    []
  let baseErrors := validation.errors ++ validation.warnings
  let lineErrors := (glyphsPerLine glyphs).foldl
    (fun acc e =>
      if 3 < e.2 then
        acc ++ [⟨lineWarnMessage e.1 e.2, ⟨e.1, 0, 0, 0⟩, Severity.warning⟩]
      else acc)
    []
  { tokens := tokens
    declarations := declarations
    references := references
    glyphs := glyphs
    errors := baseErrors ++ lineErrors }

/-! ## Suggestion rules (`suggestions/rules.ts`)

Every trigger regex of the rule table is embedded as a Boolean matcher on
the relevant text.  The `/i` flag of these regexes (which carry no `u`
flag) canonicalizes ASCII letters only, so folding with `Char.toLower`
is exact.  A `x?` suffix inside a word is expanded into the two literal
alternatives, and `\b` is "wordness differs across the position". -/

def isWordOpt : Option Char → Bool
  | none => false
  | some c => isWordCh c

/-- The character before position `i`, if any. -/
def prevOpt (t : List Char) (i : Nat) : Option Char :=
  if i = 0 then none else t[i-1]?

/-- JavaScript `\s` (the members relevant to `^[\s]*$`). -/
def isJsSpace (c : Char) : Bool :=
  c == ' ' || c == '\t' || c == '\n' || c == '\r' || c == '\x0b' ||
  c == '\x0c' || c == '\u00a0' || c == '\u1680' ||
  ('\u2000' ≤ c && c ≤ '\u200a') || c == '\u2028' || c == '\u2029' ||
  c == '\u202f' || c == '\u205f' || c == '\u3000' || c == '\ufeff'

/-- JavaScript `.` excludes the four line terminators. -/
def isLineTermCh (c : Char) : Bool :=
  c == '\n' || c == '\r' || c == '\u2028' || c == '\u2029'

/-- Does the lowercase literal `w` occur at position `i` of the folded
text with a `\b` on each side? -/
def litBHere (w : List Char) (t : List Char) (i : Nat) : Bool :=
  !w.isEmpty && w.isPrefixOf ((t.map Char.toLower).drop i) &&
    (isWordOpt (prevOpt t i) != isWordOpt w.head?) &&
    (isWordOpt w.getLast? != isWordOpt t[i + w.length]?)

/-- `/\b<literal>\b/i` occurrence test. -/
def wordB (w : String) (t : List Char) : Bool :=
  (List.range t.length).any (litBHere w.data t)

/-- Any of several literal alternatives, each with `\b` on both sides. -/
def wordBAny (ws : List String) (t : List Char) : Bool :=
  ws.any (fun w => wordB w t)

/-- `/^[\s]*$/`. -/
def allSpacePat (t : List Char) : Bool := t.all isJsSpace

/-- `/\?$/` (no `m` flag: end of input only). -/
def endsQnPat (t : List Char) : Bool := t.getLast? == some '?'

/-- `/^(what|why|how|when|where|who|which|whose)\b/i`. -/
def qWordPat (t : List Char) : Bool :=
  (["what", "why", "how", "when", "where", "who", "which", "whose"] :
      List String).any
    (fun w => w.data.isPrefixOf (t.map Char.toLower) &&
      !isWordOpt t[w.length]?)

/-- `/\b\w+ (says?|said|argues?|argued|claims?|claimed|writes?|wrote)\b/i`. -/
def citeVerbPat (t0 : List Char) : Bool :=
  let t := t0.map Char.toLower
  (List.range t.length).any (fun p =>
    2 ≤ p && t[p-1]? == some ' ' && isWordOpt t[p-2]? &&
    (["says", "say", "said", "argues", "argue", "argued", "claims",
      "claim", "claimed", "writes", "write", "wrote"] : List String).any
      (fun v => v.data.isPrefixOf (t.drop p) && !isWordOpt t[p + v.length]?))

/-- `/\[\d+\]/`. -/
def bracketNumPat (t : List Char) : Bool :=
  (List.range t.length).any (fun i =>
    t[i]? == some '[' &&
    (let ds := (t.drop (i+1)).takeWhile Char.isDigit
     !ds.isEmpty && ((t.drop (i+1)).drop ds.length).head? == some ']'))

/-- `/\(\d{4}\)/`. -/
def yearParenPat (t : List Char) : Bool :=
  (List.range t.length).any (fun i =>
    t[i]? == some '(' &&
    ((t.drop (i+1)).take 4).length == 4 &&
    ((t.drop (i+1)).take 4).all Char.isDigit &&
    t[i+5]? == some ')')

/-- `/\bvs\.?\b/i`: either `vs` with a trailing boundary, or `vs.`
followed by a word character (the boundary after the dot). -/
def vsPat (t : List Char) : Bool :=
  wordB "vs" t ||
  (List.range t.length).any (fun i =>
    !isWordOpt (prevOpt t i) &&
    "vs.".data.isPrefixOf ((t.map Char.toLower).drop i) &&
    isWordOpt t[i+3]?)

/-- `/\be\.g\.\b/i` and `/\bi\.e\.\b/i`: the trailing `\b` after the dot
demands a word character right after it. -/
def dottedAbbrevPat (w : String) (t : List Char) : Bool :=
  (List.range t.length).any (fun i =>
    !isWordOpt (prevOpt t i) &&
    w.data.isPrefixOf ((t.map Char.toLower).drop i) &&
    isWordOpt t[i + w.length]?)

/-- `/\bself-\w+ing\b/i`: after `self-`, the maximal word run must be at
least four long and end in `ing`. -/
def selfIngPat (t0 : List Char) : Bool :=
  let t := t0.map Char.toLower
  (List.range t.length).any (fun i =>
    !isWordOpt (prevOpt t i) && "self-".data.isPrefixOf (t.drop i) &&
    (let run := (t.drop (i+5)).takeWhile isWordCh
     4 ≤ run.length && "ing".data.isSuffixOf run))

/-- `/\bco-\w+\b/i`. -/
def coPat (t0 : List Char) : Bool :=
  let t := t0.map Char.toLower
  (List.range t.length).any (fun i =>
    !isWordOpt (prevOpt t i) && "co-".data.isPrefixOf (t.drop i) &&
    isWordOpt t[i+3]?)

/-- `/\bby .+ (I|we) mean\b/i`. -/
def byMeanPat (t0 : List Char) : Bool :=
  let t := t0.map Char.toLower
  (List.range t.length).any (fun i =>
    !isWordOpt (prevOpt t i) && "by ".data.isPrefixOf (t.drop i) &&
    (List.range (t.length + 1)).any (fun g =>
      i + 5 ≤ g && t[g-1]? == some ' ' &&
      ((t.drop (i+3)).take (g - 1 - (i+3))).all (fun c => !isLineTermCh c) &&
      (["i mean", "we mean"] : List String).any
        (fun v => v.data.isPrefixOf (t.drop g) &&
          !isWordOpt t[g + v.length]?)))

/-- `/":"/`. -/
def quoteColonPat (t : List Char) : Bool :=
  (List.range t.length).any (fun i =>
    ('"' :: ':' :: ['"']).isPrefixOf (t.drop i))

/-- `/—/`. -/
def emDashPat (t : List Char) : Bool := t.contains '—'

inductive SuggestionContext
  | sentence_start
  | after_causal
  | after_comparison
  | after_hedge
  | question
  | citation
  | example
  | warning
  | definition
  | unknown
deriving DecidableEq

structure SuggestionRule where
  id : String
  context : SuggestionContext
  patterns : List (List Char → Bool)
  glyphs : List Char
  confidence : ℚ
  reason : String

structure GlyphSuggestion where
  glyph : Glyph
  confidence : ℚ
  reason : String
  context : SuggestionContext
deriving DecidableEq

/-- `SUGGESTION_RULES`: the full ordered rule table. -/
def SUGGESTION_RULES : List SuggestionRule :=
  [ { id := "sentence_start_epistemic"
      context := .sentence_start
      patterns := [allSpacePat]
      glyphs := ['◇', '¿', '↑', '↓', '⌂', '■']
      confidence := (0.3 : ℚ)
      reason :=
        "Sentence-initial position often benefits from epistemic or level markers" },
    { id := "causal_because"
      context := .after_causal
      patterns :=
        [wordB "because", wordB "therefore", wordB "thus", wordB "hence",
         wordB "consequently", wordB "as a result",
         wordBAny ["causes", "cause"], wordBAny ["leads to", "lead to"],
         wordBAny ["results in", "result in"],
         wordBAny ["produces", "produce"],
         wordBAny ["generates", "generate"]]
      glyphs := ['→', '↻']
      confidence := (0.75 : ℚ)
      reason := "Causal language suggests causation (→) or feedback (↻) glyphs" },
    { id := "comparison_contrast"
      context := .after_comparison
      patterns :=
        [wordB "unlike", wordB "whereas", wordB "in contrast",
         wordB "on the other hand", wordB "compared to", vsPat,
         wordB "versus", wordBAny ["differs from", "differ from"],
         wordB "distinct from"]
      glyphs := ['⇄']
      confidence := (0.8 : ℚ)
      reason := "Comparison language suggests contrast (⇄) glyph" },
    { id := "analogy"
      context := .after_comparison
      patterns :=
        [wordB "similar to", wordB "like", wordB "analogous to",
         wordBAny ["resembles", "resemble"], wordB "parallel to",
         wordB "akin to", wordB "just as", wordB "in the same way"]
      glyphs := ['≈']
      confidence := (0.75 : ℚ)
      reason := "Analogy language suggests analogy (≈) glyph" },
    { id := "hedge_uncertainty"
      context := .after_hedge
      patterns :=
        [wordB "perhaps", wordB "maybe", wordB "might", wordB "could",
         wordB "possibly", wordB "probably", wordBAny ["seems", "seem"],
         wordBAny ["appears", "appear"], wordB "i think",
         wordB "i believe", wordB "tentatively", wordB "provisionally"]
      glyphs := ['◇']
      confidence := (0.7 : ℚ)
      reason := "Hedging language suggests hypothesis (◇) glyph" },
    { id := "question"
      context := .question
      patterns := [endsQnPat, qWordPat]
      glyphs := ['¿']
      confidence := (0.85 : ℚ)
      reason := "Questions benefit from inquiry (¿) glyph" },
    { id := "citation"
      context := .citation
      patterns :=
        [wordB "according to", citeVerbPat, wordB "cited",
         wordBAny ["quoted", "quote"],
         wordBAny ["sourced", "sources", "source"], bracketNumPat,
         yearParenPat]
      glyphs := ['§']
      confidence := (0.8 : ℚ)
      reason := "Citation language suggests sourced (§) glyph" },
    { id := "example"
      context := .example
      patterns :=
        [wordBAny ["for example", "for instance"], wordB "such as",
         dottedAbbrevPat "e.g.", dottedAbbrevPat "i.e.", wordB "namely",
         wordB "specifically", wordB "in particular", wordB "consider",
         wordB "take the case of"]
      glyphs := ['↓']
      confidence := (0.75 : ℚ)
      reason := "Example language suggests concretization (↓) glyph" },
    { id := "abstraction"
      context := .sentence_start
      patterns :=
        [wordB "in general", wordB "generally", wordB "overall",
         wordB "broadly", wordB "the principle", wordB "the pattern",
         wordBAny ["abstractly", "abstract"], wordB "fundamentally"]
      glyphs := ['↑']
      confidence := (0.7 : ℚ)
      reason := "Generalization language suggests abstraction (↑) glyph" },
    { id := "warning"
      context := .warning
      patterns :=
        [wordB "however", wordB "but", wordB "except", wordB "unless",
         wordB "caveat", wordB "warning", wordB "caution",
         wordB "note that", wordB "beware", wordB "watch out",
         wordB "limitation"]
      glyphs := ['⚠']
      confidence := (0.75 : ℚ)
      reason := "Warning/exception language suggests caution (⚠) glyph" },
    { id := "definition"
      context := .definition
      patterns :=
        [wordB "is defined as", wordB "means", wordB "refers to",
         wordBAny ["denotes", "denote"],
         wordBAny ["is a", "is an", "is the"], byMeanPat, quoteColonPat,
         emDashPat]
      glyphs := ['■']
      confidence := (0.7 : ℚ)
      reason := "Definition language suggests definition (■) glyph" },
    { id := "core_concept"
      context := .definition
      patterns :=
        [wordB "fundamental", wordB "central", wordB "core",
         wordB "essential",
         wordBAny ["key concept", "key idea", "key principle"],
         wordB "framework", wordB "paradigm", wordB "schema"]
      glyphs := ['⌂']
      confidence := (0.7 : ℚ)
      reason := "Core concept language suggests core schema (⌂) glyph" },
    { id := "precedent"
      context := .example
      patterns :=
        [wordB "historically", wordB "traditionally", wordB "previously",
         wordB "in the past", wordB "originally", wordB "formerly",
         wordB "background"]
      glyphs := ['←']
      confidence := (0.7 : ℚ)
      reason := "Historical language suggests precedent (←) glyph" },
    { id := "increase"
      context := .unknown
      patterns :=
        [wordBAny ["increases", "increase"],
         wordBAny ["strengthens", "strengthen"],
         wordBAny ["intensifies", "intensifie"],
         wordBAny ["enhances", "enhance"],
         wordBAny ["amplifies", "amplifie"], wordB "more",
         wordB "greater", wordB "higher"]
      glyphs := ['▲']
      confidence := (0.6 : ℚ)
      reason := "Increase language suggests magnitude increase (▲) glyph" },
    { id := "decrease"
      context := .unknown
      patterns :=
        [wordBAny ["decreases", "decrease"],
         wordBAny ["weakens", "weaken"],
         wordBAny ["diminishes", "diminishe"],
         wordBAny ["reduces", "reduce"],
         wordBAny ["attenuates", "attenuate"], wordB "less",
         wordB "lower", wordB "fewer"]
      glyphs := ['▼']
      confidence := (0.6 : ℚ)
      reason := "Decrease language suggests magnitude decrease (▼) glyph" },
    { id := "intent"
      context := .unknown
      patterns :=
        [wordBAny ["intends", "intend"], wordBAny ["aims", "aim"],
         wordB "goal", wordB "purpose", wordB "objective",
         wordB "in order to", wordB "so that", wordB "for the sake of",
         wordB "telos"]
      glyphs := ['⦿']
      confidence := (0.7 : ℚ)
      reason := "Purpose language suggests intent (⦿) glyph" },
    { id := "execution"
      context := .unknown
      patterns :=
        [wordBAny ["executes", "execute"],
         wordBAny ["implements", "implement"],
         wordBAny ["performs", "perform"], wordBAny ["does", "doe"],
         wordBAny ["acts", "act"],
         wordBAny ["practiced", "practices", "practice"],
         wordBAny ["carries out", "carrie out"],
         wordBAny ["applies", "applie"]]
      glyphs := ['⌁']
      confidence := (0.65 : ℚ)
      reason := "Action language suggests execution (⌁) glyph" },
    { id := "feedback"
      context := .after_causal
      patterns :=
        [wordB "feedback", wordB "loop", wordB "cycle",
         wordB "recursive", wordBAny ["reinforces", "reinforce"],
         selfIngPat, wordB "vicious circle", wordB "virtuous cycle"]
      glyphs := ['↻']
      confidence := (0.8 : ℚ)
      reason := "Feedback/loop language suggests feedback (↻) glyph" },
    { id := "interaction"
      context := .unknown
      patterns :=
        [wordBAny ["interacts", "interact"],
         wordBAny ["couples", "couple"], coPat,
         wordBAny ["mutually", "mutual"], wordB "interdependent",
         wordBAny ["relates to", "relate to"],
         wordBAny ["connects to", "connect to"]]
      glyphs := ['⊗']
      confidence := (0.65 : ℚ)
      reason := "Interaction language suggests interaction (⊗) glyph" },
    { id := "confidence"
      context := .unknown
      patterns :=
        [wordB "certainly", wordB "definitely", wordB "undoubtedly",
         wordB "verified", wordB "confirmed", wordB "established",
         wordB "proven", wordB "reliable"]
      glyphs := ['✓']
      confidence := (0.7 : ℚ)
      reason := "Confidence language suggests accepted (✓) glyph" },
    { id := "anchor"
      context := .unknown
      patterns :=
        [wordBAny ["importantly", "important"],
         wordBAny ["crucially", "crucial"], wordB "key",
         wordB "remember", wordB "note",
         wordBAny ["significantly", "significant"],
         wordB "worth noting"]
      glyphs := ['★']
      confidence := (0.65 : ℚ)
      reason := "Importance language suggests anchor (★) glyph" } ]

/-- `getContextAroundCursor(text, cursorPosition, windowSize)`. -/
def getContextAroundCursor (text : List Char) (cursorPosition : Nat)
    (windowSize : Nat) : List Char :=
  let s := cursorPosition - windowSize
  let e := min text.length (cursorPosition + windowSize)
  (text.drop s).take (e - s)

/-- "must stay in front" test of the descending-confidence stable sort. -/
def ltConfD (a b : GlyphSuggestion) : Bool :=
  decide (b.confidence < a.confidence)

/-- One rule step of `matchRules`: on the first matching trigger, propose
all of the rule's glyphs not yet seen (the seen-set is updated before the
registry lookup, as in the source). -/
def ruleStep (relevantText : List Char)
    (st : List Char × List GlyphSuggestion) (rule : SuggestionRule) :
    List Char × List GlyphSuggestion :=
  if rule.patterns.any (fun p => p relevantText) then
    rule.glyphs.foldl
      (fun st2 sym =>
        if st2.1.contains sym then st2
        else
          match getGlyph sym with
          | some g => (st2.1 ++ [sym],
              st2.2 ++ [⟨g, rule.confidence, rule.reason, rule.context⟩])
          | none => (st2.1 ++ [sym], st2.2))
      st
  else st

/-- `matchRules(text, cursorPosition)`. -/
def matchRules (text : List Char) (cursorPosition : Option Nat) :
    List GlyphSuggestion :=
  let relevantText :=
    match cursorPosition with
    | some c => getContextAroundCursor text c 100
    | none => text
  sortStable ltConfD
    (SUGGESTION_RULES.foldl (ruleStep relevantText) ([], [])).2

/-- Invariant tying a counter's used-value set to its declaration map:
both are duplicate-free, they have the same members, and every map entry
is keyed by its declaration's DotId value. -/
def GoodCounter (c : DotIdCounter) : Prop :=
  c.usedIds.Nodup ∧ (c.declarations.map Prod.fst).Nodup ∧
  (∀ v, v ∈ c.usedIds ↔ v ∈ c.declarations.map Prod.fst) ∧
  (∀ e ∈ c.declarations, e.1 = e.2.dotId.value)

/-! ## Definitions used by the verification statements -/

/-- The inner glyph fold of `ruleStep`, abstracted over the rule's
fields. -/
def glyphFold (conf : ℚ) (reason : String) (ctx : SuggestionContext)
    (st : List Char × List GlyphSuggestion) (syms : List Char) :
    List Char × List GlyphSuggestion :=
  syms.foldl
    (fun st2 sym =>
      if st2.1.contains sym then st2
      else
        match getGlyph sym with
        | some g => (st2.1 ++ [sym], st2.2 ++ [⟨g, conf, reason, ctx⟩])
        | none => (st2.1 ++ [sym], st2.2))
    st

/-- Non-overlap of two source spans. -/
def SDisj (a b : DotIdMatch) : Prop :=
  a.position.offset + a.position.length ≤ b.position.offset ∨
  b.position.offset + b.position.length ≤ a.position.offset

/-- Non-overlap of two token spans. -/
def TDisj (a b : Token) : Prop :=
  a.position.offset + a.position.length ≤ b.position.offset ∨
  b.position.offset + b.position.length ≤ a.position.offset

/-- The character at `q` satisfies `P`. -/
def startsWith (P : Char → Bool) (text : List Char) (q : Nat) : Prop :=
  ∃ x, text[q]? = some x ∧ P x = true

/-- Every character of the span `[q, q+len)` satisfies `P`. -/
def spanAll (P : Char → Bool) (text : List Char) (q len : Nat) : Prop :=
  ∀ x ∈ (text.drop q).take len, P x = true

/-- Character class of a single-word term match span. -/
def wordSpanCh (x : Char) : Bool :=
  isWordCh x || x == '{' || isDotCh x || x == '}'

/-- Character class of a glyph attachment match span. -/
def glyphSpanCh (x : Char) : Bool :=
  isGlyphCh x || x == '{' || isDotCh x || x == '}'

/-- Character class of a standalone reference match span. -/
def refSpanCh (x : Char) : Bool :=
  x == '{' || isDotCh x || x == '}'

/-- Facts available about an accepted quoted-term (pattern 1) match. -/
def M1facts (text : List Char) (m : DotIdMatch) : Prop :=
  startsWith (fun x => x == '"') text m.position.offset ∧
  1 ≤ m.position.length

/-- Facts available about an accepted single-word term (pattern 2)
match. -/
def M2facts (text : List Char) (m : DotIdMatch) : Prop :=
  startsWith isWordCh text m.position.offset ∧
  spanAll wordSpanCh text m.position.offset m.position.length ∧
  1 ≤ m.position.length

/-- Facts available about an accepted glyph attachment (pattern 3)
match. -/
def M3facts (text : List Char) (m : DotIdMatch) : Prop :=
  startsWith isGlyphCh text m.position.offset ∧
  text[m.position.offset + 1]? = some '{' ∧
  spanAll glyphSpanCh text m.position.offset m.position.length ∧
  1 ≤ m.position.length

/-- Facts available about an accepted standalone reference (pattern 4)
match. -/
def M4facts (text : List Char) (m : DotIdMatch) : Prop :=
  spanAll refSpanCh text m.position.offset m.position.length ∧
  (∃ n, m.position.length = n + 2 ∧
    text[m.position.offset]? = some '{' ∧
    (∀ j, 1 ≤ j → j ≤ n →
      ∃ x, text[m.position.offset + j]? = some x ∧ isDotCh x = true) ∧
    text[m.position.offset + n + 1]? = some '}')

/-! # Theorems -/

/-! ## Generic facts about the stable insertion sort -/

theorem insertStable_perm (lt : α → α → Bool) (x : α) (l : List α) :
    (insertStable lt x l).Perm (x :: l) := by
  induction l with
  | nil => simp [insertStable]
  | cons y ys ih =>
    simp only [insertStable]
    by_cases h : lt y x = true
    · simp only [h, if_pos]
      exact ((ih.cons y).trans (List.Perm.swap x y ys))
    · simp [h]

theorem sortStable_perm (lt : α → α → Bool) (l : List α) :
    (sortStable lt l).Perm l := by
  induction l with
  | nil => simp [sortStable]
  | cons x xs ih =>
    exact (insertStable_perm lt x (sortStable lt xs)).trans (ih.cons x)

theorem mem_insertStable {lt : α → α → Bool} {x y : α} {l : List α} :
    y ∈ insertStable lt x l ↔ y = x ∨ y ∈ l := by
  have h := (insertStable_perm lt x l).mem_iff (a := y)
  simpa using h

theorem pairwise_insertStable {lt : α → α → Bool}
    (hasymm : ∀ a b, lt a b = true → lt b a = false)
    (htrans : ∀ a b c, lt b a = false → lt c b = false → lt c a = false)
    {l : List α} {x : α}
    (h : l.Pairwise fun a b => lt b a = false) :
    (insertStable lt x l).Pairwise fun a b => lt b a = false := by
  induction l with
  | nil => simp [insertStable]
  | cons y ys ih =>
    rcases List.pairwise_cons.mp h with ⟨hy, hys⟩
    simp only [insertStable]
    by_cases hlt : lt y x = true
    · simp only [hlt, if_true]
      refine List.pairwise_cons.mpr ⟨?_, ih hys⟩
      intro z hz
      rcases mem_insertStable.mp hz with rfl | hz'
      · exact hasymm y z hlt
      · exact hy z hz'
    · simp only [hlt, if_false]
      refine List.pairwise_cons.mpr ⟨?_, List.pairwise_cons.mpr ⟨hy, hys⟩⟩
      intro z hz
      have hyx : lt y x = false := by simpa using hlt
      rcases List.mem_cons.mp hz with h1 | hz'
      · rw [h1]; exact hyx
      · exact htrans x y z hyx (hy z hz')

theorem pairwise_sortStable {lt : α → α → Bool}
    (hasymm : ∀ a b, lt a b = true → lt b a = false)
    (htrans : ∀ a b c, lt b a = false → lt c b = false → lt c a = false)
    (l : List α) :
    (sortStable lt l).Pairwise fun a b => lt b a = false := by
  induction l with
  | nil => simp [sortStable]
  | cons x xs ih => exact pairwise_insertStable hasymm htrans ih

/-! ## C1: codec round trip, uniqueness, distinctness -/

/-- C1.  For every value `v` in 1..10, encoding `v` to its signature and
decoding that signature back returns `v`; exactly one `DotId` exists per
value; and the 10 signatures are pairwise distinct strings. -/
theorem codec_roundtrip_unique_distinct :
    (∀ v : Nat, 1 ≤ v → v ≤ 10 →
      ∃ d, getDotIdByValue v = some d ∧
        getDotIdBySignature d.signature = some d ∧ d.value = v ∧
        ∀ d' ∈ DOT_IDS, d'.value = v → d' = d) ∧
    (DOT_IDS.map (fun d => d.signature)).Pairwise (· ≠ ·) ∧
    DOT_IDS.length = 10 := by
  refine ⟨?_, by decide, by decide⟩
  intro v h1 h2
  interval_cases v <;> exact ⟨_, rfl, by decide, by decide, by decide⟩

/-- C1 witness at `v = 7`. -/
theorem codec_roundtrip_unique_distinct_witness :
    ∃ d, getDotIdByValue 7 = some d ∧
      getDotIdBySignature d.signature = some d ∧ d.value = 7 ∧
      ∀ d' ∈ DOT_IDS, d'.value = 7 → d' = d :=
  codec_roundtrip_unique_distinct.1 7 (by decide) (by decide)

/-! ## C2: prefix-freedom of the signatures fails (only distinctness
holds) -/

/-- C2 counterexample.  The claim "no signature is a prefix of another"
is false: value 1's signature `•` is a prefix of value 2's signature
`••` (and the universally quantified no-prefix statement over `DOT_IDS`
is refuted). -/
theorem signature_prefix_counterexample :
    getDotIdByValue 1 = some ⟨1, ['•'], ['•'], false⟩ ∧
    getDotIdByValue 2 = some ⟨2, ['•', '•'], ['•', '•'], false⟩ ∧
    sigLeads ['•'] ['•', '•'] = true ∧
    ¬ (∀ d1 ∈ DOT_IDS, ∀ d2 ∈ DOT_IDS, d1.value ≠ d2.value →
        sigLeads d1.signature d2.signature = false) := by
  decide

/-- C2 amended.  The 10 signatures are pairwise distinct, but
prefix-freedom does not hold: the signature of value 1 is a prefix of
the signature of value 2. -/
theorem signature_distinct_not_prefix_free :
    (DOT_IDS.map (fun d => d.signature)).Pairwise (· ≠ ·) ∧
    sigLeads ['•'] ['•', '•'] = true := by
  decide

/-! ## C6: round trip of `buildDeclaration` through the parser -/

/-- C6.  Parsing `buildDeclaration("Socrates", dotId-for-value-1)` yields
exactly one match, of attachment kind term, with term `Socrates` and
DotId value 1 (the full match list is computed explicitly). -/
theorem build_declaration_roundtrip :
    getDotIdByValue 1 = some ⟨1, ['•'], ['•'], false⟩ ∧
    parseDotIds
        (buildDeclaration "Socrates".data ⟨1, ['•'], ['•'], false⟩)
        false =
      [⟨buildDeclaration "Socrates".data ⟨1, ['•'], ['•'], false⟩,
        some "Socrates".data, none, ⟨1, ['•'], ['•'], false⟩,
        ⟨0, 0, 0, 11⟩, AttachmentType.term⟩] ∧
    (parseDotIds
        (buildDeclaration "Socrates".data ⟨1, ['•'], ['•'], false⟩)
        false).length = 1 ∧
    ∀ m ∈ parseDotIds
        (buildDeclaration "Socrates".data ⟨1, ['•'], ['•'], false⟩)
        false,
      m.attachmentType = AttachmentType.term ∧
      m.term = some "Socrates".data ∧ m.dotId.value = 1 := by
  decide

/-! ## C5: duplicate declarations of the same value -/

/-- C5 counterexample.  For the document `Cat{○} Dog{○}` (two
declarations of value 5), the parse pipeline yields **zero**
duplicate-declaration errors — `extractDeclarations` keeps only the
first declaration per value and the second occurrence becomes a
reference, so validation sees no duplicate. -/
theorem duplicate_declaration_pipeline_counterexample :
    (parse
        (buildDeclaration "Cat".data ⟨5, ['○'], ['○'], false⟩ ++
          ' ' :: buildDeclaration "Dog".data ⟨5, ['○'], ['○'], false⟩)).errors
      = [] ∧
    (validateDotIds
        (extractDeclarations
          (parseDotIds
            (buildDeclaration "Cat".data ⟨5, ['○'], ['○'], false⟩ ++
              ' ' :: buildDeclaration "Dog".data ⟨5, ['○'], ['○'], false⟩)
            false))
        (extractReferences
          (parseDotIds
            (buildDeclaration "Cat".data ⟨5, ['○'], ['○'], false⟩ ++
              ' ' :: buildDeclaration "Dog".data ⟨5, ['○'], ['○'], false⟩)
            false)
          (extractDeclarations
            (parseDotIds
              (buildDeclaration "Cat".data ⟨5, ['○'], ['○'], false⟩ ++
                ' ' :: buildDeclaration "Dog".data ⟨5, ['○'], ['○'], false⟩)
              false)))).duplicateDeclarations = [] := by
  decide

/-- C5 amended.  When the two same-value declarations are handed directly
to `validateDotIds` (`Cat` then `Dog`, both value 5), it reports exactly
one duplicate-declaration error, positioned at the second occurrence and
citing the original term and line; through the document pipeline the
second occurrence is classified as a reference instead and no duplicate
error is produced. -/
theorem duplicate_declaration_direct_validation :
    validateDotIds
        [⟨"Cat".data, ⟨5, ['○'], ['○'], false⟩, ⟨0, 0, 0, 6⟩, true⟩,
         ⟨"Dog".data, ⟨5, ['○'], ['○'], false⟩, ⟨0, 7, 7, 6⟩, true⟩] [] =
      { isValid := false
        orphanedReferences := []
        duplicateDeclarations :=
          [⟨"Dog".data, ⟨5, ['○'], ['○'], false⟩, ⟨0, 7, 7, 6⟩, true⟩]
        errors :=
          [⟨"Duplicate declaration: DotId 5 (○) was already declared as \"Cat\" at line 1",
            ⟨0, 7, 7, 6⟩, Severity.error⟩]
        warnings :=
          [⟨"Unused declaration: \"Cat\" (○) is declared but never referenced",
            ⟨0, 0, 0, 6⟩, Severity.warning⟩] } := by
  decide

/-! ## Counter lemmas -/

theorem find?_asc_spec {p : Nat → Bool} {l : List Nat}
    (hl : l.Pairwise (· < ·)) :
    (∀ x, l.find? p = some x →
      x ∈ l ∧ p x = true ∧ ∀ y ∈ l, y < x → p y = false) ∧
    (l.find? p = none → ∀ y ∈ l, p y = false) := by
  induction l with
  | nil =>
    exact ⟨fun x hx => by simp [List.find?] at hx,
      fun _ y hy => by simp at hy⟩
  | cons a t ih =>
    rcases List.pairwise_cons.mp hl with ⟨ha, ht⟩
    by_cases hpa : p a = true
    · refine ⟨?_, ?_⟩
      · intro x hx
        rw [List.find?_cons_of_pos _ hpa, Option.some_inj] at hx
        subst hx
        refine ⟨List.mem_cons_self _ _, hpa, ?_⟩
        intro y hy hlt
        rcases List.mem_cons.mp hy with rfl | hy'
        · omega
        · exact absurd (ha y hy') (by omega)
      · intro hx
        rw [List.find?_cons_of_pos _ hpa] at hx
        exact absurd hx (by simp)
    · have hpa' : p a = false := Bool.eq_false_iff.mpr hpa
      refine ⟨?_, ?_⟩
      · intro x hx
        rw [List.find?_cons_of_neg _ hpa] at hx
        obtain ⟨hx1, hx2, hx3⟩ := (ih ht).1 x hx
        refine ⟨List.mem_cons_of_mem _ hx1, hx2, ?_⟩
        intro y hy hlt
        rcases List.mem_cons.mp hy with rfl | hy'
        · exact hpa'
        · exact hx3 y hy' hlt
      · intro hx
        rw [List.find?_cons_of_neg _ hpa] at hx
        intro y hy
        rcases List.mem_cons.mp hy with rfl | hy'
        · exact hpa'
        · exact (ih ht).2 hx y hy'

theorem contains_iff_mem [BEq α] [LawfulBEq α] (l : List α) (v : α) :
    l.contains v = true ↔ v ∈ l := by
  simp

theorem mem_one_to_ten (v : Nat) :
    v ∈ ([1, 2, 3, 4, 5, 6, 7, 8, 9, 10] : List Nat) ↔ 1 ≤ v ∧ v ≤ 10 := by
  simp only [List.mem_cons, List.not_mem_nil, or_false]
  omega

theorem addDecl_usedIds_mem (c : DotIdCounter) (d : DotDeclaration)
    (v : Nat) :
    v ∈ (c.addDeclaration d).usedIds ↔
      v ∈ c.usedIds ∨ v = d.dotId.value := by
  simp only [DotIdCounter.addDeclaration]
  by_cases h : d.dotId.value ∈ c.usedIds
  · rw [if_pos (by simpa [contains_iff_mem] using h)]
    constructor
    · exact Or.inl
    · rintro (hv | rfl)
      · exact hv
      · exact h
  · rw [if_neg (by simpa [contains_iff_mem] using h)]
    simp

theorem addDecl_usedIds_nodup (c : DotIdCounter) (d : DotDeclaration)
    (h : c.usedIds.Nodup) : (c.addDeclaration d).usedIds.Nodup := by
  simp only [DotIdCounter.addDeclaration]
  by_cases hc : d.dotId.value ∈ c.usedIds
  · rw [if_pos (by simpa [contains_iff_mem] using hc)]
    exact h
  · rw [if_neg (by simpa [contains_iff_mem] using hc)]
    simp [List.nodup_append, h, hc]

theorem fold_usedIds_nodup (ds : List DotDeclaration) :
    ∀ c : DotIdCounter, c.usedIds.Nodup →
      ((ds.foldl DotIdCounter.addDeclaration c).usedIds).Nodup := by
  induction ds with
  | nil => intro c h; exact h
  | cons d ds ih =>
    intro c h
    exact ih _ (addDecl_usedIds_nodup c d h)

theorem fold_usedIds_mem (ds : List DotDeclaration) :
    ∀ (c : DotIdCounter) (v : Nat),
      v ∈ (ds.foldl DotIdCounter.addDeclaration c).usedIds ↔
        v ∈ c.usedIds ∨ ∃ d ∈ ds, d.dotId.value = v := by
  induction ds with
  | nil => intro c v; simp
  | cons d ds ih =>
    intro c v
    rw [List.foldl_cons, ih]
    rw [addDecl_usedIds_mem]
    constructor
    · rintro ((hv | rfl) | ⟨d', hd', rfl⟩)
      · exact Or.inl hv
      · exact Or.inr ⟨d, List.mem_cons_self _ _, rfl⟩
      · exact Or.inr ⟨d', List.mem_cons_of_mem _ hd', rfl⟩
    · rintro (hv | ⟨d', hd', rfl⟩)
      · exact Or.inl (Or.inl hv)
      · rcases List.mem_cons.mp hd' with rfl | hd''
        · exact Or.inl (Or.inr rfl)
        · exact Or.inr ⟨d', hd'', rfl⟩

theorem mkCounter_usedIds_mem (ds : List DotDeclaration) (v : Nat) :
    v ∈ (mkCounter ds).usedIds ↔ ∃ d ∈ ds, d.dotId.value = v := by
  rw [mkCounter, fold_usedIds_mem]
  simp [DotIdCounter.empty]

theorem getDotIdByValue_isSome :
    ∀ v ∈ ([1, 2, 3, 4, 5, 6, 7, 8, 9, 10] : List Nat),
      ∃ d, getDotIdByValue v = some d ∧ d.value = v := by
  decide

/-! ## C8: counter capacity and next-available value -/

/-- C8.  A `DotIdCounter` constructed from 10 declarations with 10
distinct values in 1..10 is at capacity with no next available value;
in general `getNextAvailable` returns the smallest unused value of the
ascending scan from 1 (and `none` exactly when all of 1..10 are used),
`isApproachingCapacity` holds exactly at 7 or more used values and
`isAtCapacity` exactly when all 10 values are used. -/
theorem counter_capacity_next_available :
    (∀ ds : List DotDeclaration,
      (ds.map fun d => d.dotId.value).Nodup → ds.length = 10 →
      (∀ d ∈ ds, 1 ≤ d.dotId.value ∧ d.dotId.value ≤ 10) →
      (mkCounter ds).isAtCapacity = true ∧
      (mkCounter ds).getNextAvailable = none) ∧
    (∀ c : DotIdCounter,
      (c.isApproachingCapacity = true ↔ 7 ≤ c.getUsedCount) ∧
      (∀ d, c.getNextAvailable = some d →
        getDotIdByValue d.value = some d ∧ 1 ≤ d.value ∧ d.value ≤ 10 ∧
        c.isUsed d.value = false ∧
        ∀ w, 1 ≤ w → w < d.value → c.isUsed w = true) ∧
      (c.getNextAvailable = none ↔
        ∀ v, 1 ≤ v → v ≤ 10 → c.isUsed v = true) ∧
      (c.usedIds.Nodup → (∀ v ∈ c.usedIds, 1 ≤ v ∧ v ≤ 10) →
        (c.isAtCapacity = true ↔
          ∀ v, 1 ≤ v → v ≤ 10 → c.isUsed v = true))) := by
  have hasc : ([1, 2, 3, 4, 5, 6, 7, 8, 9, 10] : List Nat).Pairwise (· < ·) :=
    by decide
  have husedchar : ∀ c : DotIdCounter,
      (c.getNextAvailable = none ↔
        ∀ v, 1 ≤ v → v ≤ 10 → c.isUsed v = true) := by
    intro c
    unfold DotIdCounter.getNextAvailable
    constructor
    · intro h v h1 h2
      cases hf : ([1, 2, 3, 4, 5, 6, 7, 8, 9, 10] : List Nat).find?
          (fun v => !(c.usedIds.contains v)) with
      | none =>
        have := (find?_asc_spec hasc).2 hf v ((mem_one_to_ten v).mpr ⟨h1, h2⟩)
        simpa [DotIdCounter.isUsed] using this
      | some w =>
        rw [hf, Option.some_bind] at h
        obtain ⟨hw1, _, _⟩ := (find?_asc_spec hasc).1 w hf
        obtain ⟨d, hd, _⟩ := getDotIdByValue_isSome w hw1
        rw [h] at hd
        cases hd
    · intro h
      have hfind : ([1, 2, 3, 4, 5, 6, 7, 8, 9, 10] : List Nat).find?
          (fun v => !(c.usedIds.contains v)) = none := by
        rw [List.find?_eq_none]
        intro v hv
        obtain ⟨h1, h2⟩ := (mem_one_to_ten v).mp hv
        have hu := h v h1 h2
        simp only [DotIdCounter.isUsed] at hu
        simp only [Bool.not_eq_true', hu, decide_eq_true_eq]
        simp [(contains_iff_mem _ _).mp hu]
      rw [hfind, Option.none_bind]
  refine ⟨?_, ?_⟩
  · intro ds hnd hlen hrange
    have hvals : ∀ v, 1 ≤ v → v ≤ 10 → ∃ d ∈ ds, d.dotId.value = v := by
      intro v h1 h2
      by_contra hcon
      push_neg at hcon
      have hsub : (ds.map fun d => d.dotId.value).toFinset ⊆
          Finset.Icc 1 10 := by
        intro w hw
        rw [List.mem_toFinset, List.mem_map] at hw
        obtain ⟨d, hd, rfl⟩ := hw
        exact Finset.mem_Icc.mpr (hrange d hd)
      have hcard : (ds.map fun d => d.dotId.value).toFinset.card = 10 := by
        rw [List.toFinset_card_of_nodup hnd, List.length_map, hlen]
      have hicc : (Finset.Icc 1 10).card = 10 := by decide
      have heq := Finset.eq_of_subset_of_card_le hsub (by omega)
      have hv : v ∈ (ds.map fun d => d.dotId.value).toFinset := by
        rw [heq]
        exact Finset.mem_Icc.mpr ⟨h1, h2⟩
      rw [List.mem_toFinset, List.mem_map] at hv
      obtain ⟨d, hd, hdv⟩ := hv
      exact hcon d hd hdv
    have hall : ∀ v, 1 ≤ v → v ≤ 10 → (mkCounter ds).isUsed v = true := by
      intro v h1 h2
      have := (mkCounter_usedIds_mem ds v).mpr (hvals v h1 h2)
      simpa [DotIdCounter.isUsed] using this
    refine ⟨?_, (husedchar _).mpr hall⟩
    · have hnd2 : (mkCounter ds).usedIds.Nodup :=
        fold_usedIds_nodup ds DotIdCounter.empty (by simp [DotIdCounter.empty])
      have hperm : (mkCounter ds).usedIds.Perm
          (ds.map fun d => d.dotId.value) := by
        refine (List.perm_ext_iff_of_nodup hnd2 hnd).mpr ?_
        intro v
        rw [mkCounter_usedIds_mem, List.mem_map]
      have hl : (mkCounter ds).usedIds.length = 10 := by
        rw [hperm.length_eq, List.length_map, hlen]
      simp [DotIdCounter.isAtCapacity, hl]
  · intro c
    refine ⟨?_, ?_, husedchar c, ?_⟩
    · simp [DotIdCounter.isApproachingCapacity, DotIdCounter.getUsedCount]
    · intro d hd
      unfold DotIdCounter.getNextAvailable at hd
      cases hf : ([1, 2, 3, 4, 5, 6, 7, 8, 9, 10] : List Nat).find?
          (fun v => !(c.usedIds.contains v)) with
      | none => rw [hf, Option.none_bind] at hd; exact absurd hd (by simp)
      | some v =>
        rw [hf, Option.some_bind] at hd
        obtain ⟨hv1, hv2, hv3⟩ := (find?_asc_spec hasc).1 v hf
        have hdv : d.value = v := by
          have := List.find?_some hd
          simpa using this
        obtain ⟨h1, h10⟩ := (mem_one_to_ten v).mp hv1
        subst hdv
        refine ⟨hd, h1, h10, ?_, ?_⟩
        · simpa [DotIdCounter.isUsed] using hv2
        · intro w hw1 hw2
          have hwmem : w ∈ ([1, 2, 3, 4, 5, 6, 7, 8, 9, 10] : List Nat) :=
            (mem_one_to_ten w).mpr ⟨hw1, by omega⟩
          have := hv3 w hwmem hw2
          simpa [DotIdCounter.isUsed] using this
    · intro hnd hrange
      simp only [DotIdCounter.isAtCapacity, decide_eq_true_eq]
      constructor
      · intro hlen v h1 h2
        have hsub : c.usedIds.toFinset ⊆ Finset.Icc 1 10 := by
          intro w hw
          rw [List.mem_toFinset] at hw
          exact Finset.mem_Icc.mpr (hrange w hw)
        have hcard : c.usedIds.toFinset.card = c.usedIds.length :=
          List.toFinset_card_of_nodup hnd
        have hicc : (Finset.Icc 1 10).card = 10 := by decide
        have heq := Finset.eq_of_subset_of_card_le hsub (by omega)
        have hv : v ∈ c.usedIds.toFinset := by
          rw [heq]; exact Finset.mem_Icc.mpr ⟨h1, h2⟩
        rw [List.mem_toFinset] at hv
        simpa [DotIdCounter.isUsed] using hv
      · intro hall
        have hsub : Finset.Icc 1 10 ⊆ c.usedIds.toFinset := by
          intro v hv
          obtain ⟨h1, h2⟩ := Finset.mem_Icc.mp hv
          have := hall v h1 h2
          simp only [DotIdCounter.isUsed] at this
          rw [List.mem_toFinset]
          simpa using this
        have hicc : (Finset.Icc 1 10).card = 10 := by decide
        have := Finset.card_le_card hsub
        have hcard : c.usedIds.toFinset.card ≤ c.usedIds.length :=
          List.toFinset_card_le _
        omega

/-- C8 witness: the counter built from the 10 `DOT_IDS` declarations. -/
theorem counter_capacity_next_available_witness :
    ((mkCounter (DOT_IDS.map
        (fun d => ⟨['t'], d, ⟨0, 0, 0, 1⟩, true⟩))).isAtCapacity = true ∧
      (mkCounter (DOT_IDS.map
        (fun d => ⟨['t'], d, ⟨0, 0, 0, 1⟩, true⟩))).getNextAvailable
        = none) ∧
    ((DotIdCounter.mk [5] [(5, ⟨['t'], ⟨5, ['○'], ['○'], false⟩,
        ⟨0, 0, 0, 1⟩, true⟩)]).isAtCapacity = true ↔
      ∀ v, 1 ≤ v → v ≤ 10 →
        (DotIdCounter.mk [5] [(5, ⟨['t'], ⟨5, ['○'], ['○'], false⟩,
          ⟨0, 0, 0, 1⟩, true⟩)]).isUsed v = true) :=
  ⟨counter_capacity_next_available.1
      (DOT_IDS.map (fun d => ⟨['t'], d, ⟨0, 0, 0, 1⟩, true⟩))
      (by decide) (by decide) (by decide),
    ((counter_capacity_next_available.2 _).2.2.2 (by decide) (by decide))⟩

/-! ## C10: counter invariant and snapshot/restore -/

theorem addDecl_declKeys_mem (c : DotIdCounter) (d : DotDeclaration)
    (v : Nat) :
    v ∈ (c.addDeclaration d).declarations.map Prod.fst ↔
      v ∈ c.declarations.map Prod.fst ∨ v = d.dotId.value := by
  simp only [DotIdCounter.addDeclaration]
  by_cases h : d.dotId.value ∈ c.declarations.map Prod.fst
  · rw [if_pos (by simpa [contains_iff_mem] using h)]
    constructor
    · exact Or.inl
    · rintro (hv | rfl)
      · exact hv
      · exact h
  · rw [if_neg (by simpa [contains_iff_mem] using h)]
    simp

theorem addDecl_good (c : DotIdCounter) (d : DotDeclaration)
    (h : GoodCounter c) : GoodCounter (c.addDeclaration d) := by
  obtain ⟨h1, h2, h3, h4⟩ := h
  have hiff : d.dotId.value ∈ c.usedIds ↔
      d.dotId.value ∈ c.declarations.map Prod.fst := h3 _
  by_cases hin : d.dotId.value ∈ c.usedIds
  · have hin2 : d.dotId.value ∈ c.declarations.map Prod.fst := hiff.mp hin
    have e1 : (c.addDeclaration d).usedIds = c.usedIds := by
      simp only [DotIdCounter.addDeclaration]
      rw [if_pos (by simpa [contains_iff_mem] using hin)]
    have e2 : (c.addDeclaration d).declarations = c.declarations := by
      simp only [DotIdCounter.addDeclaration]
      rw [if_pos (by simpa [contains_iff_mem] using hin2)]
    exact ⟨by rw [e1]; exact h1, by rw [e2]; exact h2,
      fun v => by rw [e1, e2]; exact h3 v, fun e he => h4 e (by rwa [e2] at he)⟩
  · have hin2 : d.dotId.value ∉ c.declarations.map Prod.fst :=
      fun hc => hin (hiff.mpr hc)
    have e1 : (c.addDeclaration d).usedIds =
        c.usedIds ++ [d.dotId.value] := by
      simp only [DotIdCounter.addDeclaration]
      rw [if_neg (by simpa [contains_iff_mem] using hin)]
    have e2 : (c.addDeclaration d).declarations =
        c.declarations ++ [(d.dotId.value, d)] := by
      simp only [DotIdCounter.addDeclaration]
      rw [if_neg (by simpa [contains_iff_mem] using hin2)]
    refine ⟨?_, ?_, ?_, ?_⟩
    · rw [e1]; simp [List.nodup_append, h1, hin]
    · rw [e2]; simp [List.nodup_append, h2, hin2]
    · intro v
      rw [e1, e2]
      simp only [List.map_append, List.mem_append, List.map_cons,
        List.map_nil, List.mem_singleton, List.mem_cons, List.not_mem_nil,
        or_false]
      rw [h3 v]
    · intro e he
      rw [e2] at he
      rcases List.mem_append.mp he with he' | he'
      · exact h4 e he'
      · rcases List.mem_singleton.mp he' with rfl
        rfl

theorem fold_good (ds : List DotDeclaration) :
    ∀ c : DotIdCounter, GoodCounter c →
      GoodCounter (ds.foldl DotIdCounter.addDeclaration c) := by
  induction ds with
  | nil => intro c h; exact h
  | cons d ds ih => intro c h; exact ih _ (addDecl_good c d h)

theorem empty_good : GoodCounter DotIdCounter.empty := by
  refine ⟨by simp [DotIdCounter.empty], by simp [DotIdCounter.empty],
    fun v => by simp [DotIdCounter.empty], fun e he => ?_⟩
  simp [DotIdCounter.empty] at he

theorem removeId_good (c : DotIdCounter) (v : Nat) (h : GoodCounter c) :
    GoodCounter (c.removeId v) := by
  obtain ⟨h1, h2, h3, h4⟩ := h
  refine ⟨List.Nodup.filter _ h1, ?_, ?_, ?_⟩
  · have hsub : ((c.declarations.filter (fun e => e.1 ≠ v)).map
        Prod.fst).Sublist (c.declarations.map Prod.fst) :=
      (List.filter_sublist _).map Prod.fst
    exact h2.sublist hsub
  · intro w
    constructor
    · intro hw
      have hw' : w ∈ c.usedIds ∧ w ≠ v := by
        simpa [DotIdCounter.removeId, List.mem_filter] using hw
      obtain ⟨e, he, rfl⟩ := List.mem_map.mp ((h3 w).mp hw'.1)
      apply List.mem_map.mpr
      refine ⟨e, ?_, rfl⟩
      simp only [DotIdCounter.removeId, List.mem_filter]
      exact ⟨he, by simpa using hw'.2⟩
    · intro hw
      obtain ⟨e, he, rfl⟩ := List.mem_map.mp hw
      have he' : e ∈ c.declarations ∧ e.1 ≠ v := by
        simpa [DotIdCounter.removeId, List.mem_filter] using he
      simp only [DotIdCounter.removeId, List.mem_filter]
      exact ⟨(h3 e.1).mpr (List.mem_map.mpr ⟨e, he'.1, rfl⟩),
        decide_eq_true he'.2⟩
  · intro e he
    have he' : e ∈ c.declarations ∧ e.1 ≠ v := by
      simpa [DotIdCounter.removeId, List.mem_filter] using he
    exact h4 e he'.1

/-- Folding `addDeclaration` over the values of a well-keyed,
duplicate-free entry list rebuilds exactly that entry list. -/
theorem rebuild_exact :
    ∀ (todo : List (Nat × DotDeclaration)) (c₀ : DotIdCounter),
      c₀.usedIds = c₀.declarations.map Prod.fst →
      ((c₀.declarations ++ todo).map Prod.fst).Nodup →
      (∀ e ∈ todo, e.1 = e.2.dotId.value) →
      (todo.map Prod.snd).foldl DotIdCounter.addDeclaration c₀ =
        ⟨(c₀.declarations ++ todo).map Prod.fst,
         c₀.declarations ++ todo⟩ := by
  intro todo
  induction todo with
  | nil =>
    intro c₀ h1 _ _
    cases c₀
    simp_all
  | cons e todo ih =>
    intro c₀ h1 h2 h3
    have hkey : e.1 = e.2.dotId.value := h3 e (List.mem_cons_self _ _)
    have hnotin : e.2.dotId.value ∉ c₀.declarations.map Prod.fst := by
      intro hc
      rw [List.map_append] at h2
      have hdisj := (List.nodup_append.mp h2).2.2
      exact hdisj (a := e.1) (by rwa [← hkey] at hc) (by simp)
    have hstep : c₀.addDeclaration e.2 =
        ⟨c₀.usedIds ++ [e.2.dotId.value],
         c₀.declarations ++ [(e.2.dotId.value, e.2)]⟩ := by
      simp only [DotIdCounter.addDeclaration]
      rw [if_neg (by simpa [contains_iff_mem, h1] using hnotin),
        if_neg (by simpa [contains_iff_mem] using hnotin)]
    have hrepack : (e.2.dotId.value, e.2) = e := by
      cases e
      simp only at hkey ⊢
      rw [hkey]
    rw [List.map_cons, List.foldl_cons, hstep]
    have happ : (c₀.declarations ++ [(e.2.dotId.value, e.2)]) ++ todo =
        c₀.declarations ++ e :: todo := by
      rw [hrepack, List.append_assoc, List.singleton_append]
    have := ih ⟨c₀.usedIds ++ [e.2.dotId.value],
        c₀.declarations ++ [(e.2.dotId.value, e.2)]⟩
      (by simp [h1, hrepack, hkey])
      (by rw [happ]; exact h2)
      (fun e' he' => h3 e' (List.mem_cons_of_mem _ he'))
    rw [this, happ]

/-- C10.  Every counter operation preserves the invariant that the set
of used values equals the key set of the declaration map (with both
duplicate-free and entries keyed by their declaration value), and for
any counter satisfying the invariant, `restore(snapshot())` reproduces
the observable state: `isUsed` and `getDeclaration` for every value in
1..10, and `getUsedCount`. -/
theorem counter_invariant_snapshot_restore :
    GoodCounter DotIdCounter.empty ∧
    (∀ c d, GoodCounter c → GoodCounter (c.addDeclaration d)) ∧
    (∀ c v, GoodCounter c → GoodCounter (c.removeId v)) ∧
    (∀ c : DotIdCounter, GoodCounter c.reset) ∧
    (∀ (c : DotIdCounter) s, GoodCounter (c.restore s)) ∧
    (∀ ds, GoodCounter (mkCounter ds)) ∧
    (∀ c : DotIdCounter, GoodCounter c →
      (∀ v, 1 ≤ v → v ≤ 10 →
        (c.restore c.snapshot).isUsed v = c.isUsed v ∧
        (c.restore c.snapshot).getDeclaration v = c.getDeclaration v) ∧
      (c.restore c.snapshot).getUsedCount = c.getUsedCount) := by
  have hrestore : ∀ (c : DotIdCounter) s, GoodCounter (c.restore s) := by
    intro c s
    exact fold_good s.2 DotIdCounter.empty empty_good
  refine ⟨empty_good, addDecl_good, removeId_good,
    fun _ => empty_good, hrestore, fun ds => fold_good ds _ empty_good, ?_⟩
  intro c hg
  obtain ⟨h1, h2, h3, h4⟩ := hg
  have hre : c.restore c.snapshot =
      ⟨c.declarations.map Prod.fst, c.declarations⟩ := by
    show (c.declarations.map Prod.snd).foldl DotIdCounter.addDeclaration
        DotIdCounter.empty = _
    have := rebuild_exact c.declarations DotIdCounter.empty
      (by simp [DotIdCounter.empty]) (by simpa [DotIdCounter.empty] using h2)
      h4
    simpa [DotIdCounter.empty] using this
  constructor
  · intro v _ _
    constructor
    · rw [hre]
      simp only [DotIdCounter.isUsed]
      rw [Bool.eq_iff_iff, contains_iff_mem, contains_iff_mem]
      exact (h3 v).symm
    · rw [hre]
      rfl
  · rw [hre]
    simp only [DotIdCounter.getUsedCount]
    have hperm : (c.declarations.map Prod.fst).Perm c.usedIds :=
      (List.perm_ext_iff_of_nodup h2 h1).mpr (fun v => (h3 v).symm)
    exact hperm.length_eq

/-- C10 witness: a concrete one-entry counter satisfying the invariant. -/
theorem counter_invariant_snapshot_restore_witness :
    GoodCounter (DotIdCounter.addDeclaration DotIdCounter.empty
      ⟨['C'], ⟨5, ['○'], ['○'], false⟩, ⟨0, 0, 0, 6⟩, true⟩) ∧
    (((DotIdCounter.mk [5] [(5, ⟨['C'], ⟨5, ['○'], ['○'], false⟩,
          ⟨0, 0, 0, 6⟩, true⟩)]).restore
        (DotIdCounter.mk [5] [(5, ⟨['C'], ⟨5, ['○'], ['○'], false⟩,
          ⟨0, 0, 0, 6⟩, true⟩)]).snapshot).isUsed 5 =
      (DotIdCounter.mk [5] [(5, ⟨['C'], ⟨5, ['○'], ['○'], false⟩,
          ⟨0, 0, 0, 6⟩, true⟩)]).isUsed 5) := by
  have hg : GoodCounter (DotIdCounter.mk [5]
      [(5, ⟨['C'], ⟨5, ['○'], ['○'], false⟩, ⟨0, 0, 0, 6⟩, true⟩)]) := by
    refine ⟨by simp, by simp, fun v => by simp, fun e he => ?_⟩
    simp only [List.mem_singleton] at he
    rw [he]
  refine ⟨?_, ?_⟩
  · exact (counter_invariant_snapshot_restore.2.1 DotIdCounter.empty
      ⟨['C'], ⟨5, ['○'], ['○'], false⟩, ⟨0, 0, 0, 6⟩, true⟩ empty_good)
  · exact (((counter_invariant_snapshot_restore.2.2.2.2.2.2 _ hg).1 5
      (by decide) (by decide)).1)

/-! ## C4: declaration extraction and reference classification -/

theorem extractDeclsAux_nodup :
    ∀ (ms : List DotIdMatch) (seen : List Nat) (acc : List DotDeclaration),
      seen = acc.map (fun d => d.dotId.value) →
      (acc.map fun d => d.dotId.value).Nodup →
      ((extractDeclsAux seen acc ms).map fun d => d.dotId.value).Nodup := by
  intro ms
  induction ms with
  | nil => intro seen acc _ h; exact h
  | cons m rest ih =>
    intro seen acc hseen hnd
    simp only [extractDeclsAux]
    by_cases hc : m.attachmentType ≠ AttachmentType.reference ∧
        ¬ seen.contains m.dotId.value
    · rw [if_pos hc]
      refine ih _ _ ?_ ?_
      · simp [hseen]
      · have hvnot : m.dotId.value ∉ acc.map (fun d => d.dotId.value) := by
          intro hmem
          exact hc.2 (by rw [hseen]; exact (contains_iff_mem _ _).mpr hmem)
        simp [List.nodup_append, hnd, hvnot]
    · rw [if_neg hc]
      exact ih seen acc hseen hnd

theorem extractDeclsAux_spec :
    ∀ (ms : List DotIdMatch) (seen : List Nat) (acc : List DotDeclaration),
      ms.Pairwise (fun a b => a.position.offset ≤ b.position.offset) →
      ∀ d ∈ extractDeclsAux seen acc ms,
        d ∈ acc ∨
        ∃ m ∈ ms, m.attachmentType ≠ AttachmentType.reference ∧
          m.dotId.value ∉ seen ∧
          d = ⟨declLabel m, m.dotId, m.position, true⟩ ∧
          ∀ m' ∈ ms, m'.attachmentType ≠ AttachmentType.reference →
            m'.dotId.value = m.dotId.value →
            m.position.offset ≤ m'.position.offset := by
  intro ms
  induction ms with
  | nil => intro seen acc _ d hd; exact Or.inl hd
  | cons m rest ih =>
    intro seen acc hp d hd
    rcases List.pairwise_cons.mp hp with ⟨hm, hrest⟩
    simp only [extractDeclsAux] at hd
    by_cases hc : m.attachmentType ≠ AttachmentType.reference ∧
        ¬ seen.contains m.dotId.value
    · rw [if_pos hc] at hd
      rcases ih _ _ hrest d hd with hacc | ⟨m2, hm2, hnr2, hns2, hd2, hmin2⟩
      · rcases List.mem_append.mp hacc with hacc' | hnew
        · exact Or.inl hacc'
        · rcases List.mem_singleton.mp hnew with rfl
          refine Or.inr ⟨m, List.mem_cons_self _ _, hc.1, ?_, rfl, ?_⟩
          · intro hmem
            exact hc.2 ((contains_iff_mem _ _).mpr hmem)
          · intro m' hm' hnr' hval
            rcases List.mem_cons.mp hm' with rfl | hm''
            · exact Nat.le_refl _
            · exact hm m' hm''
      · refine Or.inr ⟨m2, List.mem_cons_of_mem _ hm2, hnr2, ?_, hd2, ?_⟩
        · intro hmem
          exact hns2 (List.mem_append.mpr (Or.inl hmem))
        · intro m' hm' hnr' hval
          rcases List.mem_cons.mp hm' with rfl | hm''
          · exfalso
            apply hns2
            apply List.mem_append.mpr
            right
            simpa using hval.symm
          · exact hmin2 m' hm'' hnr' hval
    · rw [if_neg hc] at hd
      rcases ih _ _ hrest d hd with hacc | ⟨m2, hm2, hnr2, hns2, hd2, hmin2⟩
      · exact Or.inl hacc
      · refine Or.inr ⟨m2, List.mem_cons_of_mem _ hm2, hnr2, hns2, hd2, ?_⟩
        intro m' hm' hnr' hval
        rcases List.mem_cons.mp hm' with rfl | hm''
        · exfalso
          rcases Decidable.not_and_iff_or_not.mp hc with hc1 | hc2
          · exact hc1 hnr'
          · apply hns2
            have : m'.dotId.value ∈ seen := by
              have := Decidable.not_not.mp hc2
              exact (contains_iff_mem _ _).mp this
            rwa [hval] at this
        · exact hmin2 m' hm'' hnr' hval

theorem find?_value_unique :
    ∀ (l : List DotDeclaration) (d : DotDeclaration),
      (l.map fun d => d.dotId.value).Nodup → d ∈ l →
      l.find? (fun e => e.dotId.value == d.dotId.value) = some d := by
  intro l
  induction l with
  | nil => intro d _ hd; cases hd
  | cons a t ih =>
    intro d hnd hd
    rcases List.mem_cons.mp hd with rfl | hd'
    · rw [List.find?_cons_of_pos _ (by simp)]
    · rw [List.map_cons] at hnd
      rcases List.nodup_cons.mp hnd with ⟨hna, hnt⟩
      have hne : a.dotId.value ≠ d.dotId.value := by
        intro heq
        exact hna (by rw [heq]; exact List.mem_map.mpr ⟨d, hd', rfl⟩)
      rw [List.find?_cons_of_neg _ (by simpa using hne)]
      exact ih d hnt hd'

theorem declMapGet_eq_of_nodup (decls : List DotDeclaration)
    (d : DotDeclaration)
    (hnd : (decls.map fun d => d.dotId.value).Nodup) (hd : d ∈ decls) :
    declMapGet decls d.dotId.value = some d := by
  unfold declMapGet
  apply find?_value_unique
  · rw [List.map_reverse]
    exact List.nodup_reverse.mpr hnd
  · exact List.mem_reverse.mpr hd

theorem refStep_mono {decls : List DotDeclaration}
    {acc : List DotReference} {m : DotIdMatch} {x : DotReference}
    (h : x ∈ acc) : x ∈ refStep decls acc m := by
  unfold refStep
  split
  · exact List.mem_append.mpr (Or.inl h)
  · split
    · split
      · split
        · exact List.mem_append.mpr (Or.inl h)
        · exact h
      · exact h
    · exact h

theorem foldRef_mono {decls : List DotDeclaration}
    (ms : List DotIdMatch) :
    ∀ (acc : List DotReference) (x : DotReference), x ∈ acc →
      x ∈ ms.foldl (refStep decls) acc := by
  induction ms with
  | nil => intro acc x h; exact h
  | cons m rest ih =>
    intro acc x h
    exact ih _ x (refStep_mono h)

theorem mem_extractReferences_of_later_attachment :
    ∀ (ms : List DotIdMatch) (decls : List DotDeclaration)
      (m : DotIdMatch) (d : DotDeclaration) (acc : List DotReference),
      m ∈ ms → m.attachmentType ≠ AttachmentType.reference →
      declMapGet decls m.dotId.value = some d →
      d.position.offset < m.position.offset →
      (⟨m.dotId, m.position, some d⟩ : DotReference) ∈
        ms.foldl (refStep decls) acc := by
  intro ms
  induction ms with
  | nil => intro _ _ _ _ hm; cases hm
  | cons m0 rest ih =>
    intro decls m d acc hm hnr hget hoff
    rcases List.mem_cons.mp hm with rfl | hm'
    · rw [List.foldl_cons]
      apply foldRef_mono
      unfold refStep
      rw [if_neg (by simpa using hnr)]
      have hhas : declaredHas decls m.dotId.value = true := by
        unfold declaredHas
        cases hfind : decls.reverse.find?
            (fun e => e.dotId.value == m.dotId.value) with
        | none =>
          exfalso
          unfold declMapGet at hget
          rw [hfind] at hget
          cases hget
        | some e =>
          have he := List.mem_reverse.mp (List.mem_of_find?_eq_some hfind)
          have hpe := List.find?_some hfind
          exact List.any_eq_true.mpr ⟨e, he, hpe⟩
      rw [if_pos hhas]
      split
      · rename_i decl2 heq
        rw [hget] at heq
        injection heq with heq2
        subst heq2
        rw [if_pos hoff]
        exact List.mem_append.mpr (Or.inr (List.mem_singleton.mpr rfl))
      · rename_i heq
        rw [hget] at heq
        cases heq
    · rw [List.foldl_cons]
      exact ih decls m d _ hm' hnr hget hoff

/-- C4.  For a match list sorted by ascending offset,
`extractDeclarations` yields at most one declaration per DotId value —
namely one originating from a lowest-offset non-reference match for that
value — and every term- or glyph-attachment match whose offset is
strictly greater than its value's declaration offset is classified as a
reference (linked to that declaration) by `extractReferences`. -/
theorem extract_declarations_references_spec :
    ∀ ms : List DotIdMatch,
      ms.Pairwise (fun a b => a.position.offset ≤ b.position.offset) →
      (((extractDeclarations ms).map fun d => d.dotId.value).Nodup ∧
       (∀ d ∈ extractDeclarations ms,
         ∃ m ∈ ms, m.attachmentType ≠ AttachmentType.reference ∧
           m.dotId = d.dotId ∧ m.position = d.position ∧
           ∀ m' ∈ ms, m'.attachmentType ≠ AttachmentType.reference →
             m'.dotId.value = d.dotId.value →
             d.position.offset ≤ m'.position.offset) ∧
       (∀ m ∈ ms, m.attachmentType ≠ AttachmentType.reference →
         ∀ d ∈ extractDeclarations ms, d.dotId.value = m.dotId.value →
           d.position.offset < m.position.offset →
           (⟨m.dotId, m.position, some d⟩ : DotReference) ∈
             extractReferences ms (extractDeclarations ms))) := by
  intro ms hp
  refine ⟨?_, ?_, ?_⟩
  · exact extractDeclsAux_nodup ms [] [] (by simp) (by simp)
  · intro d hd
    rcases extractDeclsAux_spec ms [] [] hp d hd with hacc | hspec
    · cases hacc
    · obtain ⟨m, hm, hnr, _, hdef, hmin⟩ := hspec
      refine ⟨m, hm, hnr, ?_, ?_, ?_⟩
      · rw [hdef]
      · rw [hdef]
      · intro m' hm' hnr' hval
        rw [hdef]
        apply hmin m' hm' hnr'
        rw [hval, hdef]
  · intro m hm hnr d hd hval hoff
    have hnd : ((extractDeclarations ms).map fun d => d.dotId.value).Nodup :=
      extractDeclsAux_nodup ms [] [] (by simp) (by simp)
    have hget : declMapGet (extractDeclarations ms) m.dotId.value
        = some d := by
      rw [← hval]
      exact declMapGet_eq_of_nodup _ d hnd hd
    exact mem_extractReferences_of_later_attachment ms
      (extractDeclarations ms) m d [] hm hnr hget hoff

/-- C4 witness: two same-value term matches at offsets 0 and 7. -/
theorem extract_declarations_references_spec_witness :
    (((extractDeclarations
        [⟨[], some "Cat".data, none,
            ⟨5, ['○'], ['○'], false⟩, ⟨0, 0, 0, 6⟩, AttachmentType.term⟩,
         ⟨[], some "Dog".data, none, ⟨5, ['○'], ['○'], false⟩,
            ⟨0, 7, 7, 6⟩, AttachmentType.term⟩]).map
        fun d => d.dotId.value).Nodup) :=
  (extract_declarations_references_spec
    [⟨[], some "Cat".data, none, ⟨5, ['○'], ['○'], false⟩,
        ⟨0, 0, 0, 6⟩, AttachmentType.term⟩,
     ⟨[], some "Dog".data, none, ⟨5, ['○'], ['○'], false⟩,
        ⟨0, 7, 7, 6⟩, AttachmentType.term⟩]
    (by decide)).1

/-! ## C9: "because" in the cursor window yields the causation glyph -/

theorem ruleStep_eq (t : List Char)
    (st : List Char × List GlyphSuggestion) (r : SuggestionRule) :
    ruleStep t st r =
      if r.patterns.any (fun p => p t) then
        glyphFold r.confidence r.reason r.context st r.glyphs
      else st := rfl

theorem glyphFold_seen_subset (conf : ℚ) (reason : String)
    (ctx : SuggestionContext) :
    ∀ (syms : List Char) (st : List Char × List GlyphSuggestion),
      ∀ v ∈ (glyphFold conf reason ctx st syms).1, v ∈ st.1 ∨ v ∈ syms := by
  intro syms
  induction syms with
  | nil => intro st v hv; exact Or.inl hv
  | cons sym rest ih =>
    intro st v hv
    rw [glyphFold, List.foldl_cons] at hv
    rcases ih _ v hv with hv' | hv'
    · by_cases hc : st.1.contains sym = true
      · rw [if_pos hc] at hv'
        exact Or.inl hv'
      · rw [if_neg hc] at hv'
        cases hg : getGlyph sym with
        | some g =>
          rw [hg] at hv'
          rcases List.mem_append.mp hv' with h | h
          · exact Or.inl h
          · exact Or.inr (by simp [List.mem_singleton.mp h])
        | none =>
          rw [hg] at hv'
          rcases List.mem_append.mp hv' with h | h
          · exact Or.inl h
          · exact Or.inr (by simp [List.mem_singleton.mp h])
    · exact Or.inr (List.mem_cons_of_mem _ hv')

theorem glyphFold_sugg_mono (conf : ℚ) (reason : String)
    (ctx : SuggestionContext) :
    ∀ (syms : List Char) (st : List Char × List GlyphSuggestion)
      (s : GlyphSuggestion), s ∈ st.2 →
      s ∈ (glyphFold conf reason ctx st syms).2 := by
  intro syms
  induction syms with
  | nil => intro st s h; exact h
  | cons sym rest ih =>
    intro st s h
    rw [glyphFold, List.foldl_cons]
    apply ih
    by_cases hc : st.1.contains sym = true
    · rw [if_pos hc]; exact h
    · rw [if_neg hc]
      cases hg : getGlyph sym with
      | some g => exact List.mem_append.mpr (Or.inl h)
      | none => exact h

theorem glyphFold_adds (conf : ℚ) (reason : String)
    (ctx : SuggestionContext) :
    ∀ (syms : List Char) (st : List Char × List GlyphSuggestion)
      (sym : Char) (g : Glyph),
      sym ∈ syms → sym ∉ st.1 → getGlyph sym = some g →
      (⟨g, conf, reason, ctx⟩ : GlyphSuggestion) ∈
        (glyphFold conf reason ctx st syms).2 := by
  intro syms
  induction syms with
  | nil => intro st sym g hmem; cases hmem
  | cons sym0 rest ih =>
    intro st sym g hmem hnot hget
    rw [glyphFold, List.foldl_cons]
    rcases List.mem_cons.mp hmem with rfl | hmem'
    · have hc : ¬ st.1.contains sym = true := by
        simpa [contains_iff_mem] using hnot
      rw [if_neg hc, hget]
      apply glyphFold_sugg_mono
      exact List.mem_append.mpr (Or.inr (List.mem_singleton.mpr rfl))
    · by_cases hc : st.1.contains sym0 = true
      · rw [if_pos hc]
        exact ih st sym g hmem' hnot hget
      · rw [if_neg hc]
        cases hg0 : getGlyph sym0 with
        | some g0 =>
          by_cases hsym : sym = sym0
          · have hgg : g = g0 := by
              rw [hsym, hg0] at hget
              injection hget with h2
              exact h2.symm
            subst hgg
            apply glyphFold_sugg_mono
            exact List.mem_append.mpr (Or.inr (List.mem_singleton.mpr rfl))
          · apply ih _ sym g hmem' ?_ hget
            intro hin
            rcases List.mem_append.mp hin with h | h
            · exact hnot h
            · exact hsym (List.mem_singleton.mp h)
        | none =>
          apply ih _ sym g hmem' ?_ hget
          intro hin
          rcases List.mem_append.mp hin with h | h
          · exact hnot h
          · have h2 : sym = sym0 := List.mem_singleton.mp h
            rw [h2, hg0] at hget
            cases hget

theorem ruleStep_sugg_mono (t : List Char)
    (st : List Char × List GlyphSuggestion) (r : SuggestionRule)
    (s : GlyphSuggestion) (h : s ∈ st.2) : s ∈ (ruleStep t st r).2 := by
  rw [ruleStep_eq]
  split
  · exact glyphFold_sugg_mono r.confidence r.reason r.context r.glyphs st s h
  · exact h

theorem foldRules_sugg_mono (t : List Char) (rules : List SuggestionRule) :
    ∀ (st : List Char × List GlyphSuggestion) (s : GlyphSuggestion),
      s ∈ st.2 → s ∈ (rules.foldl (ruleStep t) st).2 := by
  induction rules with
  | nil => intro st s h; exact h
  | cons r rest ih =>
    intro st s h
    rw [List.foldl_cons]
    exact ih _ s (ruleStep_sugg_mono t st r s h)

theorem ruleStep_seen_subset (t : List Char)
    (st : List Char × List GlyphSuggestion) (r : SuggestionRule) :
    ∀ v ∈ (ruleStep t st r).1, v ∈ st.1 ∨ v ∈ r.glyphs := by
  rw [ruleStep_eq]
  split
  · exact glyphFold_seen_subset r.confidence r.reason r.context r.glyphs st
  · intro v hv
    exact Or.inl hv

/-- C9.  For every text and cursor position such that the word `because`
occurs (with word boundaries, case-insensitively — the causal rule's
first trigger) inside the 100-character window around the cursor,
`matchRules` returns a suggestion set containing the causation glyph `→`
with confidence at least 0.7 (namely 0.75). -/
theorem because_suggests_causation :
    ∀ (text : List Char) (cursor : Nat),
      wordB "because" (getContextAroundCursor text cursor 100) = true →
      ∃ s ∈ matchRules text (some cursor),
        s.glyph.symbol = '→' ∧ s.glyph.name = "Causation" ∧
        (0.7 : ℚ) ≤ s.confidence := by
  intro text cursor hword
  obtain ⟨r1, r2, rest, hrules, hg1, hg2, hconf2, hpats2⟩ :
      ∃ r1 r2 rest, SUGGESTION_RULES = r1 :: r2 :: rest ∧
        r1.glyphs = ['◇', '¿', '↑', '↓', '⌂', '■'] ∧
        r2.glyphs = ['→', '↻'] ∧ r2.confidence = (0.75 : ℚ) ∧
        r2.patterns.head? = some (wordB "because") :=
    ⟨_, _, _, rfl, rfl, rfl, rfl, rfl⟩
  have hglyph : getGlyph '→' =
      some ⟨'→', "Causation", GlyphCategory.causal,
        "A influences or produces B", some '↻',
        categoryColor GlyphCategory.causal, true⟩ := by decide
  have hfold :
      (⟨⟨'→', "Causation", GlyphCategory.causal,
          "A influences or produces B", some '↻',
          categoryColor GlyphCategory.causal, true⟩,
        r2.confidence, r2.reason, r2.context⟩ : GlyphSuggestion) ∈
      (SUGGESTION_RULES.foldl
        (ruleStep (getContextAroundCursor text cursor 100)) ([], [])).2 := by
    rw [hrules, List.foldl_cons, List.foldl_cons]
    apply foldRules_sugg_mono
    have hnotseen : '→' ∉
        (ruleStep (getContextAroundCursor text cursor 100) ([], []) r1).1 := by
      intro hin
      rcases ruleStep_seen_subset _ ([], []) r1 '→' hin with h | h
      · simp at h
      · rw [hg1] at h
        exact absurd h (by decide)
    rw [ruleStep_eq]
    have hany : r2.patterns.any
        (fun p => p (getContextAroundCursor text cursor 100)) = true := by
      cases hp : r2.patterns with
      | nil => rw [hp] at hpats2; cases hpats2
      | cons p ps =>
        rw [hp] at hpats2
        have hpb : p = wordB "because" := by
          simpa using hpats2
        rw [List.any_cons, hpb, hword]
        rfl
    rw [if_pos hany, hg2]
    exact glyphFold_adds r2.confidence r2.reason r2.context ['→', '↻'] _
      '→' _ (by simp) hnotseen hglyph
  refine ⟨⟨⟨'→', "Causation", GlyphCategory.causal,
      "A influences or produces B", some '↻',
      categoryColor GlyphCategory.causal, true⟩,
      r2.confidence, r2.reason, r2.context⟩, ?_, rfl, rfl, ?_⟩
  · show _ ∈ matchRules text (some cursor)
    exact (sortStable_perm ltConfD _).mem_iff.mpr hfold
  · rw [hconf2]
    norm_num

/-- C9 witness: the text `because` with the cursor at 0. -/
theorem because_suggests_causation_witness :
    ∃ s ∈ matchRules "because".data (some 0),
      s.glyph.symbol = '→' ∧ s.glyph.name = "Causation" ∧
      (0.7 : ℚ) ≤ s.confidence :=
  because_suggests_causation "because".data 0 (by decide)

/-! ## C3: scanner lemmas -/

theorem scanPat_pos_le {tryAt : Option Char → List Char → Option RawCand} :
    ∀ (fuel : Nat) (prev : Option Char) (cs : List Char) (pos : Nat)
      (c : RawCand) (q : Nat),
      (c, q) ∈ scanPat tryAt fuel prev cs pos → pos ≤ q := by
  intro fuel
  induction fuel with
  | zero => intro _ _ _ _ _ h; cases h
  | succ fuel ih =>
    intro prev cs pos c q h
    cases cs with
    | nil => cases h
    | cons ch rest =>
      rw [scanPat] at h
      cases htry : tryAt prev (ch :: rest) with
      | some cand =>
        rw [htry] at h
        rcases List.mem_cons.mp h with heq | h'
        · injection heq with h1 h2
          omega
        · have := ih _ _ _ c q h'
          omega
      | none =>
        rw [htry] at h
        have := ih _ _ _ c q h
        omega

theorem scanPat_strong_sorted
    {tryAt : Option Char → List Char → Option RawCand} :
    ∀ (fuel : Nat) (prev : Option Char) (cs : List Char) (pos : Nat),
      (scanPat tryAt fuel prev cs pos).Pairwise
        (fun a b => a.2 + a.1.len ≤ b.2) := by
  intro fuel
  induction fuel with
  | zero => intro _ _ _; simp [scanPat]
  | succ fuel ih =>
    intro prev cs pos
    cases cs with
    | nil => simp [scanPat]
    | cons ch rest =>
      rw [scanPat]
      cases htry : tryAt prev (ch :: rest) with
      | some cand =>
        refine List.pairwise_cons.mpr ⟨?_, ih _ _ _⟩
        intro b hb
        have := scanPat_pos_le _ _ _ _ b.1 b.2 (by simpa using hb)
        exact this
      | none => exact ih _ _ _

theorem scanPat_mem_tryAt
    {tryAt : Option Char → List Char → Option RawCand}
    (hlen : ∀ pr s c, tryAt pr s = some c → 1 ≤ c.len) :
    ∀ (fuel : Nat) (prev : Option Char) (cs : List Char) (pos : Nat)
      (c : RawCand) (q : Nat),
      (c, q) ∈ scanPat tryAt fuel prev cs pos →
      ∃ pr, tryAt pr (cs.drop (q - pos)) = some c := by
  intro fuel
  induction fuel with
  | zero => intro _ _ _ _ _ h; cases h
  | succ fuel ih =>
    intro prev cs pos c q h
    cases cs with
    | nil => cases h
    | cons ch rest =>
      rw [scanPat] at h
      cases htry : tryAt prev (ch :: rest) with
      | some cand =>
        rw [htry] at h
        rcases List.mem_cons.mp h with heq | h'
        · injection heq with h1 h2
          subst h1
          subst h2
          exact ⟨prev, by simpa using htry⟩
        · have hple := scanPat_pos_le _ _ _ _ c q h'
          obtain ⟨pr, hpr⟩ := ih _ _ _ c q h'
          refine ⟨pr, ?_⟩
          rw [List.drop_drop] at hpr
          have hc1 : 1 ≤ cand.len := hlen _ _ _ htry
          have harith : cand.len - 1 + (q - (pos + cand.len)) =
              q - pos - 1 := by omega
          rw [harith] at hpr
          have hq : q - pos = (q - pos - 1) + 1 := by omega
          rw [hq, List.drop_succ_cons]
          exact hpr
      | none =>
        rw [htry] at h
        obtain ⟨pr, hpr⟩ := ih _ _ _ c q h
        have hple := scanPat_pos_le _ _ _ _ c q h
        refine ⟨pr, ?_⟩
        have hq : q - pos = (q - (pos + 1)) + 1 := by omega
        rw [hq, List.drop_succ_cons]
        exact hpr

theorem drop_takeWhile_length (p : Char → Bool) (l : List Char) :
    l.drop (l.takeWhile p).length = l.dropWhile p := by
  induction l with
  | nil => rfl
  | cons a l ih =>
    by_cases h : p a <;>
      simp [List.takeWhile_cons, List.dropWhile_cons, h, ih]

theorem takeWhile_split (p : Char → Bool) (l : List Char) :
    l = l.takeWhile p ++ l.drop (l.takeWhile p).length := by
  rw [drop_takeWhile_length]
  exact (List.takeWhile_append_dropWhile ..).symm

theorem trySingle_decomp {prev : Option Char} {s : List Char}
    {c : RawCand} (h : trySingleAt prev s = some c) :
    ∃ tm sg rest2, s = tm ++ '{' :: (sg ++ '}' :: rest2) ∧
      tm ≠ [] ∧ sg ≠ [] ∧ (∀ x ∈ tm, isWordCh x = true) ∧
      (∀ x ∈ sg, isDotCh x = true) ∧
      c.len = tm.length + sg.length + 2 := by
  simp only [trySingleAt] at h
  split at h
  next => cases h
  next =>
    split at h
    next => cases h
    next hempty1 =>
      split at h
      next rest2 heq =>
        split at h
        next => cases h
        next hempty2 =>
          split at h
          next rest3 heq2 =>
            injection h with hc
            subst hc
            refine ⟨s.takeWhile isWordCh,
              rest2.takeWhile isDotCh, rest3, ?_, ?_, ?_, ?_, ?_, rfl⟩
            · conv_lhs => rw [takeWhile_split isWordCh s]
              rw [heq]
              congr 1
              conv_lhs => rw [takeWhile_split isDotCh rest2]
              rw [heq2]
            · simpa using hempty1
            · simpa using hempty2
            · exact fun x hx => List.mem_takeWhile_imp hx
            · exact fun x hx => List.mem_takeWhile_imp hx
          next => cases h
      next => cases h

theorem tryQuoted_decomp {prev : Option Char} {s : List Char}
    {c : RawCand} (h : tryQuotedAt prev s = some c) :
    ∃ tm sg rest3, s = '"' :: (tm ++ '"' :: '{' :: (sg ++ '}' :: rest3)) ∧
      (∀ x ∈ sg, isDotCh x = true) ∧
      c.len = tm.length + sg.length + 4 := by
  simp only [tryQuotedAt] at h
  split at h
  next rest =>
    split at h
    next => cases h
    next hempty1 =>
      split at h
      next rest2 heq =>
        split at h
        next => cases h
        next hempty2 =>
          split at h
          next rest3 heq2 =>
            injection h with hc
            subst hc
            refine ⟨rest.takeWhile (fun c => c != '"'),
              rest2.takeWhile isDotCh, rest3, ?_, ?_, rfl⟩
            · congr 1
              conv_lhs => rw [takeWhile_split (fun c => c != '"') rest]
              rw [heq]
              congr 1
              congr 1
              conv_lhs => rw [takeWhile_split isDotCh rest2]
              rw [heq2]
            · exact fun x hx => List.mem_takeWhile_imp hx
          next => cases h
      next => cases h
  next => cases h

theorem tryGlyph_decomp {prev : Option Char} {s : List Char}
    {c : RawCand} (h : tryGlyphAt prev s = some c) :
    ∃ g sg rest3, s = g :: '{' :: (sg ++ '}' :: rest3) ∧
      isGlyphCh g = true ∧ (∀ x ∈ sg, isDotCh x = true) ∧
      c.len = sg.length + 3 := by
  simp only [tryGlyphAt] at h
  split at h
  next g rest2 =>
    split at h
    next hg =>
      split at h
      next => cases h
      next hempty =>
        split at h
        next rest3 heq2 =>
          injection h with hc
          subst hc
          refine ⟨g, rest2.takeWhile isDotCh, rest3, ?_, hg, ?_, rfl⟩
          · congr 2
            conv_lhs => rw [takeWhile_split isDotCh rest2]
            rw [heq2]
          · exact fun x hx => List.mem_takeWhile_imp hx
        next => cases h
    next => cases h
  next => cases h

theorem tryRef_decomp {prev : Option Char} {s : List Char}
    {c : RawCand} (h : tryRefAt prev s = some c) :
    ∃ sg rest3, s = '{' :: (sg ++ '}' :: rest3) ∧
      (∀ x ∈ sg, isDotCh x = true) ∧ c.len = sg.length + 2 := by
  simp only [tryRefAt] at h
  split at h
  next => cases h
  next =>
    split at h
    next rest2 =>
      split at h
      next => cases h
      next hempty =>
        split at h
        next rest3 heq2 =>
          injection h with hc
          subst hc
          refine ⟨rest2.takeWhile isDotCh, rest3, ?_, ?_, rfl⟩
          · congr 1
            conv_lhs => rw [takeWhile_split isDotCh rest2]
            rw [heq2]
          · exact fun x hx => List.mem_takeWhile_imp hx
        next => cases h
    next => cases h

theorem mem_take_of_getElem? {s : List Char} {i n : Nat} {x : Char}
    (h : s[i]? = some x) (hin : i < n) : x ∈ s.take n := by
  have h2 : (s.take n)[i]? = some x := by
    rw [List.getElem?_take]
    rw [if_pos hin]
    exact h
  obtain ⟨hlt, rfl⟩ := List.getElem?_eq_some.mp h2
  exact List.getElem_mem ..

theorem no_start_inside {P Q : Char → Bool} {text : List Char}
    {aoff boff blen : Nat}
    (hPQ : ∀ x, Q x = true → P x = false)
    (ha : startsWith P text aoff) (hb : spanAll Q text boff blen) :
    ¬(boff < aoff ∧ aoff < boff + blen) := by
  rintro ⟨h1, h2⟩
  obtain ⟨x, hx, hPx⟩ := ha
  have hidx : (text.drop boff)[aoff - boff]? = some x := by
    rw [List.getElem?_drop]
    rw [show boff + (aoff - boff) = aoff by omega]
    exact hx
  have hmem : x ∈ (text.drop boff).take blen :=
    mem_take_of_getElem? hidx (by omega)
  have hQ := hb x hmem
  rw [hPQ x hQ] at hPx
  cases hPx

theorem sdisj_of_checks {a b : DotIdMatch}
    (h1 : ¬(a.position.offset ≤ b.position.offset ∧
      b.position.offset < a.position.offset + a.position.length))
    (h2 : ¬(b.position.offset < a.position.offset ∧
      a.position.offset < b.position.offset + b.position.length)) :
    SDisj a b := by
  unfold SDisj
  omega

theorem sdisj_symm {a b : DotIdMatch} (h : SDisj a b) : SDisj b a := by
  unfold SDisj at h ⊢
  omega

theorem wordSpan_not_quote : ∀ x, wordSpanCh x = true →
    (x == '"') = false := by
  intro x h
  by_cases hx : x = '"'
  · subst hx
    exact absurd h (by decide)
  · simpa using hx

theorem glyphSpan_not_quote : ∀ x, glyphSpanCh x = true →
    (x == '"') = false := by
  intro x h
  by_cases hx : x = '"'
  · subst hx
    exact absurd h (by decide)
  · simpa using hx

theorem refSpan_not_quote : ∀ x, refSpanCh x = true →
    (x == '"') = false := by
  intro x h
  by_cases hx : x = '"'
  · subst hx
    exact absurd h (by decide)
  · simpa using hx

theorem glyph_not_word : ∀ x ∈ GLYPH_SYMBOLS, isWordCh x = false := by
  decide

theorem dot_not_word : ∀ x, isDotCh x = true → isWordCh x = false := by
  intro x h
  rcases (by simpa [isDotCh, or_assoc] using h :
      x = '•' ∨ x = '○' ∨ x = '⦿') with rfl | rfl | rfl <;> decide

theorem glyphSpan_not_word : ∀ x, glyphSpanCh x = true →
    isWordCh x = false := by
  intro x h
  rcases (by simpa [glyphSpanCh, or_assoc] using h :
      isGlyphCh x = true ∨ x = '{' ∨ isDotCh x = true ∨ x = '}') with
    hg | rfl | hd | rfl
  · exact glyph_not_word x ((contains_iff_mem _ _).mp (by
      simpa [isGlyphCh] using hg))
  · decide
  · exact dot_not_word x hd
  · decide

theorem refSpan_not_word : ∀ x, refSpanCh x = true →
    isWordCh x = false := by
  intro x h
  rcases (by simpa [refSpanCh, or_assoc] using h :
      x = '{' ∨ isDotCh x = true ∨ x = '}') with rfl | hd | rfl
  · decide
  · exact dot_not_word x hd
  · decide

theorem take_append_exact (l1 l2 : List Char) (k : Nat) :
    (l1 ++ l2).take (l1.length + k) = l1 ++ l2.take k := by
  simp [List.take_append]

theorem mkMatch_offset (text : List Char) (cand : RawCand) (pos : Nat)
    (d : DotId) : (mkMatch text cand pos d).position.offset = pos := rfl

theorem mkMatch_length (text : List Char) (cand : RawCand) (pos : Nat)
    (d : DotId) : (mkMatch text cand pos d).position.length = cand.len :=
  rfl

theorem M1facts_of_try {text : List Char} {q : Nat} {pr : Option Char}
    {cand : RawCand} {d : DotId}
    (h : tryQuotedAt pr (text.drop q) = some cand) :
    M1facts text (mkMatch text cand q d) := by
  obtain ⟨tm, sg, rest3, hs, _, hlen⟩ := tryQuoted_decomp h
  constructor
  · refine ⟨'"', ?_, by decide⟩
    have : (text.drop q)[0]? = some '"' := by
      rw [hs]
      simp
    rw [List.getElem?_drop] at this
    simpa using this
  · rw [mkMatch_length, hlen]
    omega

theorem M2facts_of_try {text : List Char} {q : Nat} {pr : Option Char}
    {cand : RawCand} {d : DotId}
    (h : trySingleAt pr (text.drop q) = some cand) :
    M2facts text (mkMatch text cand q d) := by
  obtain ⟨tm, sg, rest2, hs, htm, _, hword, hdot, hlen⟩ :=
    trySingle_decomp h
  have hcomp : (text.drop q).take cand.len = tm ++ '{' :: (sg ++ ['}']) := by
    rw [hlen, hs]
    rw [show tm.length + sg.length + 2 = tm.length + (sg.length + 2)
      by omega]
    rw [take_append_exact]
    rw [show sg.length + 2 = (sg.length + 1) + 1 by omega]
    rw [List.take_succ_cons]
    rw [take_append_exact sg ('}' :: rest2) 1]
    simp
  refine ⟨?_, ?_, ?_⟩
  · obtain ⟨x, tm', rfl⟩ : ∃ x tm', tm = x :: tm' := by
      cases tm with
      | nil => exact absurd rfl htm
      | cons x tm' => exact ⟨x, tm', rfl⟩
    refine ⟨x, ?_, hword x (List.mem_cons_self _ _)⟩
    have hzero : (text.drop q)[0]? = some x := by
      rw [hs]
      simp
    rw [List.getElem?_drop] at hzero
    simpa using hzero
  · intro x hx
    rw [mkMatch_offset, mkMatch_length, hcomp] at hx
    rcases List.mem_append.mp hx with hx1 | hx2
    · simp [wordSpanCh, hword x hx1]
    · rcases List.mem_cons.mp hx2 with rfl | hx3
      · decide
      · rcases List.mem_append.mp hx3 with hx4 | hx5
        · simp [wordSpanCh, hdot x hx4]
        · rcases List.mem_singleton.mp hx5 with rfl
          decide
  · rw [mkMatch_length, hlen]
    omega

theorem M3facts_of_try {text : List Char} {q : Nat} {pr : Option Char}
    {cand : RawCand} {d : DotId}
    (h : tryGlyphAt pr (text.drop q) = some cand) :
    M3facts text (mkMatch text cand q d) := by
  obtain ⟨g, sg, rest3, hs, hg, hdot, hlen⟩ := tryGlyph_decomp h
  have hcomp : (text.drop q).take cand.len =
      g :: '{' :: (sg ++ ['}']) := by
    rw [hlen, hs]
    rw [show sg.length + 3 = ((sg.length + 1) + 1) + 1 by omega]
    rw [List.take_succ_cons, List.take_succ_cons]
    rw [take_append_exact sg ('}' :: rest3) 1]
    simp
  refine ⟨?_, ?_, ?_, ?_⟩
  · refine ⟨g, ?_, hg⟩
    have hzero : (text.drop q)[0]? = some g := by
      rw [hs]
      simp
    rw [List.getElem?_drop] at hzero
    simpa using hzero
  · have hone : (text.drop q)[1]? = some '{' := by
      rw [hs]
      simp
    rw [List.getElem?_drop] at hone
    rw [mkMatch_offset]
    exact hone
  · intro x hx
    rw [mkMatch_offset, mkMatch_length, hcomp] at hx
    rcases List.mem_cons.mp hx with rfl | hx2
    · simp [glyphSpanCh, hg]
    · rcases List.mem_cons.mp hx2 with rfl | hx3
      · decide
      · rcases List.mem_append.mp hx3 with hx4 | hx5
        · simp [glyphSpanCh, hdot x hx4]
        · rcases List.mem_singleton.mp hx5 with rfl
          decide
  · rw [mkMatch_length, hlen]
    omega

theorem M4facts_of_try {text : List Char} {q : Nat} {pr : Option Char}
    {cand : RawCand} {d : DotId}
    (h : tryRefAt pr (text.drop q) = some cand) :
    M4facts text (mkMatch text cand q d) := by
  obtain ⟨sg, rest3, hs, hdot, hlen⟩ := tryRef_decomp h
  have hcomp : (text.drop q).take cand.len = '{' :: (sg ++ ['}']) := by
    rw [hlen, hs]
    rw [show sg.length + 2 = (sg.length + 1) + 1 by omega]
    rw [List.take_succ_cons]
    rw [take_append_exact sg ('}' :: rest3) 1]
    simp
  constructor
  · intro x hx
    rw [mkMatch_offset, mkMatch_length, hcomp] at hx
    rcases List.mem_cons.mp hx with rfl | hx2
    · decide
    · rcases List.mem_append.mp hx2 with hx4 | hx5
      · simp [refSpanCh, hdot x hx4]
      · rcases List.mem_singleton.mp hx5 with rfl
        decide
  · refine ⟨sg.length, by rw [mkMatch_length, hlen], ?_, ?_, ?_⟩
    · have hzero : (text.drop q)[0]? = some '{' := by
        rw [hs]
        simp
      rw [List.getElem?_drop] at hzero
      rw [mkMatch_offset]
      simpa using hzero
    · intro j hj1 hjn
      have hidx : (text.drop q)[j]? = sg[j-1]? := by
        rw [hs]
        obtain ⟨k, rfl⟩ : ∃ k, j = k + 1 := ⟨j - 1, by omega⟩
        rw [List.getElem?_cons_succ]
        rw [List.getElem?_append, if_pos (by omega)]
        simp
      have hsome : sg[j-1]? = some (sg.get ⟨j-1, by omega⟩) := by
        rw [List.getElem?_eq_getElem (by omega)]
        rfl
      refine ⟨sg.get ⟨j-1, by omega⟩, ?_, ?_⟩
      · rw [mkMatch_offset]
        rw [← List.getElem?_drop]
        rw [hidx, hsome]
      · exact hdot _ (sg.get_mem ..)
    · have hidx : (text.drop q)[sg.length + 1]? = some '}' := by
        rw [hs]
        rw [List.getElem?_cons_succ]
        rw [List.getElem?_append, if_neg (by omega)]
        simp
      rw [List.getElem?_drop] at hidx
      rw [mkMatch_offset]
      rw [show q + sg.length + 1 = q + (sg.length + 1) by omega]
      exact hidx

/-- A glyph attachment match cannot start strictly inside a standalone
reference span: a glyph character inside `{dots}` can only be a `⦿`
dot, and the character after it is a dot or `}`, never `{`. -/
theorem no_m3_start_inside_m4 {text : List Char} {a b : DotIdMatch}
    (ha : M3facts text a) (hb : M4facts text b) :
    ¬(b.position.offset < a.position.offset ∧
      a.position.offset < b.position.offset + b.position.length) := by
  rintro ⟨h1, h2⟩
  obtain ⟨⟨g, hg, hgly⟩, hbrace, _, _⟩ := ha
  obtain ⟨_, n, hlen, hb0, hbdots, hbend⟩ := hb
  rw [hlen] at h2
  have hj1 : 1 ≤ a.position.offset - b.position.offset := by omega
  have hjn : a.position.offset - b.position.offset ≤ n + 1 := by omega
  by_cases hcase : a.position.offset - b.position.offset = n + 1
  · have heq : b.position.offset + n + 1 = a.position.offset := by omega
    rw [heq] at hbend
    rw [hbend] at hg
    injection hg with hg2
    rw [← hg2] at hgly
    exact absurd hgly (by decide)
  · by_cases hcase2 : a.position.offset - b.position.offset + 1 = n + 1
    · have heq : b.position.offset + n + 1 = a.position.offset + 1 := by
        omega
      rw [heq] at hbend
      rw [hbrace] at hbend
      exact absurd hbend (by decide)
    · obtain ⟨x, hx, hdotx⟩ :=
        hbdots (a.position.offset - b.position.offset + 1) (by omega)
          (by omega)
      have heq : b.position.offset +
          (a.position.offset - b.position.offset + 1) =
          a.position.offset + 1 := by omega
      rw [heq] at hx
      rw [hbrace] at hx
      injection hx with hx2
      rw [← hx2] at hdotx
      exact absurd hdotx (by decide)

/-! ## C3: `pushCands` lemmas -/

theorem pushCands_cons_none {text : List Char} {chk : Bool}
    {acc : List DotIdMatch} {cand : RawCand} {pos : Nat}
    {rest : List (RawCand × Nat)}
    (hsig : getDotIdBySignature cand.sig = none) :
    pushCands text chk acc ((cand, pos) :: rest) =
      pushCands text chk acc rest := by
  simp only [pushCands, hsig]

theorem pushCands_cons_skip {text : List Char} {chk : Bool}
    {acc : List DotIdMatch} {cand : RawCand} {pos : Nat}
    {rest : List (RawCand × Nat)} {d : DotId}
    (hsig : getDotIdBySignature cand.sig = some d)
    (hskip : (chk && overlapsAt acc pos) = true) :
    pushCands text chk acc ((cand, pos) :: rest) =
      pushCands text chk acc rest := by
  simp only [pushCands, hsig, hskip, if_true]

theorem pushCands_cons_take {text : List Char} {chk : Bool}
    {acc : List DotIdMatch} {cand : RawCand} {pos : Nat}
    {rest : List (RawCand × Nat)} {d : DotId}
    (hsig : getDotIdBySignature cand.sig = some d)
    (hskip : (chk && overlapsAt acc pos) = false) :
    pushCands text chk acc ((cand, pos) :: rest) =
      pushCands text chk (acc ++ [mkMatch text cand pos d]) rest := by
  simp only [pushCands, hsig, hskip]
  rfl

theorem pushCands_spec (text : List Char) (chk : Bool) :
    ∀ (cs : List (RawCand × Nat)) (acc : List DotIdMatch),
      ∃ new, pushCands text chk acc cs = acc ++ new ∧
        ∀ m ∈ new, ∃ cand pos d,
          (cand, pos) ∈ cs ∧ getDotIdBySignature cand.sig = some d ∧
          m = mkMatch text cand pos d := by
  intro cs
  induction cs with
  | nil =>
    intro acc
    exact ⟨[], by simp [pushCands], by simp⟩
  | cons cp rest ih =>
    intro acc
    obtain ⟨cand, pos⟩ := cp
    cases hsig : getDotIdBySignature cand.sig with
    | none =>
      rw [pushCands_cons_none hsig]
      obtain ⟨new, heq, hprops⟩ := ih acc
      exact ⟨new, heq, fun m hm =>
        (hprops m hm).imp fun c hc => hc.imp fun p hp => hp.imp fun d hd =>
          ⟨List.mem_cons_of_mem _ hd.1, hd.2⟩⟩
    | some d =>
      by_cases hskip : (chk && overlapsAt acc pos) = true
      · rw [pushCands_cons_skip hsig hskip]
        obtain ⟨new, heq, hprops⟩ := ih acc
        exact ⟨new, heq, fun m hm =>
          (hprops m hm).imp fun c hc => hc.imp fun p hp => hp.imp fun d hd =>
            ⟨List.mem_cons_of_mem _ hd.1, hd.2⟩⟩
      · rw [pushCands_cons_take hsig (Bool.eq_false_iff.mpr hskip)]
        obtain ⟨new, heq, hprops⟩ := ih (acc ++ [mkMatch text cand pos d])
        refine ⟨mkMatch text cand pos d :: new, ?_, ?_⟩
        · rw [heq, List.append_assoc, List.singleton_append]
        · intro m hm
          rcases List.mem_cons.mp hm with rfl | hm'
          · exact ⟨cand, pos, d, List.mem_cons_self _ _, hsig, rfl⟩
          · exact (hprops m hm').imp fun c hc => hc.imp fun p hp =>
              hp.imp fun d hd => ⟨List.mem_cons_of_mem _ hd.1, hd.2⟩

theorem pushCands_not_inside (text : List Char) :
    ∀ (cs : List (RawCand × Nat)) (acc : List DotIdMatch)
      (m : DotIdMatch), m ∈ pushCands text true acc cs →
      m ∈ acc ∨
      ∀ a ∈ acc, ¬(a.position.offset ≤ m.position.offset ∧
        m.position.offset < a.position.offset + a.position.length) := by
  intro cs
  induction cs with
  | nil =>
    intro acc m hm
    exact Or.inl (by simpa [pushCands] using hm)
  | cons cp rest ih =>
    intro acc m hm
    obtain ⟨cand, pos⟩ := cp
    cases hsig : getDotIdBySignature cand.sig with
    | none =>
      rw [pushCands_cons_none hsig] at hm
      exact ih acc m hm
    | some d =>
      by_cases hskip : (true && overlapsAt acc pos) = true
      · rw [pushCands_cons_skip hsig hskip] at hm
        exact ih acc m hm
      · rw [pushCands_cons_take hsig (Bool.eq_false_iff.mpr hskip)] at hm
        have hov : overlapsAt acc pos = false := by
          simpa using hskip
        rcases ih _ m hm with hin | hout
        · rcases List.mem_append.mp hin with hin' | hnew
          · exact Or.inl hin'
          · rcases List.mem_singleton.mp hnew with rfl
            refine Or.inr ?_
            intro a ha hcontra
            have : overlapsAt acc pos = true := by
              apply List.any_eq_true.mpr
              refine ⟨a, ha, ?_⟩
              rw [mkMatch_offset] at hcontra
              simpa using hcontra
            rw [hov] at this
            cases this
        · refine Or.inr ?_
          intro a ha
          exact hout a (List.mem_append.mpr (Or.inl ha))

theorem pushCands_new_pairwise (text : List Char) (chk : Bool) :
    ∀ (cs : List (RawCand × Nat)) (acc : List DotIdMatch)
      (new : List DotIdMatch),
      cs.Pairwise (fun a b => a.2 + a.1.len ≤ b.2) →
      pushCands text chk acc cs = acc ++ new →
      new.Pairwise (fun a b =>
        a.position.offset + a.position.length ≤ b.position.offset) := by
  intro cs
  induction cs with
  | nil =>
    intro acc new _ heq
    rw [pushCands] at heq
    have h2 : acc ++ [] = acc ++ new := by simpa using heq
    have hn : ([] : List DotIdMatch) = new := List.append_cancel_left h2
    rw [← hn]
    exact List.Pairwise.nil
  | cons cp rest ih =>
    intro acc new hpw heq
    obtain ⟨cand, pos⟩ := cp
    rcases List.pairwise_cons.mp hpw with ⟨hhead, htail⟩
    cases hsig : getDotIdBySignature cand.sig with
    | none =>
      rw [pushCands_cons_none hsig] at heq
      exact ih acc new htail heq
    | some d =>
      by_cases hskip : (chk && overlapsAt acc pos) = true
      · rw [pushCands_cons_skip hsig hskip] at heq
        exact ih acc new htail heq
      · rw [pushCands_cons_take hsig (Bool.eq_false_iff.mpr hskip)] at heq
        obtain ⟨new2, heq2, hprops2⟩ :=
          pushCands_spec text chk rest (acc ++ [mkMatch text cand pos d])
        have heq3 : new = mkMatch text cand pos d :: new2 := by
          have : acc ++ new = acc ++ mkMatch text cand pos d :: new2 := by
            rw [← heq, heq2, List.append_assoc, List.singleton_append]
          exact List.append_cancel_left this
        rw [heq3]
        refine List.pairwise_cons.mpr ⟨?_, ?_⟩
        · intro b hb
          obtain ⟨cand', pos', d', hmem', _, rfl⟩ := hprops2 b hb
          rw [mkMatch_offset, mkMatch_length, mkMatch_offset]
          exact hhead (cand', pos') hmem'
        · exact ih (acc ++ [mkMatch text cand pos d]) new2 htail
            (by rw [heq2])

theorem pushCands_new_not_inside (text : List Char) (chk : Bool) :
    ∀ (cs : List (RawCand × Nat)) (acc new : List DotIdMatch),
      pushCands text chk acc cs = acc ++ new →
      ∀ m ∈ new, chk = true → ∀ a ∈ acc,
        ¬(a.position.offset ≤ m.position.offset ∧
          m.position.offset < a.position.offset + a.position.length) := by
  intro cs
  induction cs with
  | nil =>
    intro acc new heq m hm
    rw [pushCands] at heq
    have h2 : acc ++ [] = acc ++ new := by simpa using heq
    have hn : ([] : List DotIdMatch) = new := List.append_cancel_left h2
    rw [← hn] at hm
    cases hm
  | cons cp rest ih =>
    intro acc new heq m hm hchk a ha
    obtain ⟨cand, pos⟩ := cp
    cases hsig : getDotIdBySignature cand.sig with
    | none =>
      rw [pushCands_cons_none hsig] at heq
      exact ih acc new heq m hm hchk a ha
    | some d =>
      by_cases hskip : (chk && overlapsAt acc pos) = true
      · rw [pushCands_cons_skip hsig hskip] at heq
        exact ih acc new heq m hm hchk a ha
      · rw [pushCands_cons_take hsig (Bool.eq_false_iff.mpr hskip)] at heq
        have hov : overlapsAt acc pos = false := by
          rw [hchk] at hskip
          simpa using hskip
        obtain ⟨new2, heq2, _⟩ :=
          pushCands_spec text chk rest (acc ++ [mkMatch text cand pos d])
        have heq3 : new = mkMatch text cand pos d :: new2 := by
          have : acc ++ new = acc ++ mkMatch text cand pos d :: new2 := by
            rw [← heq, heq2, List.append_assoc, List.singleton_append]
          exact List.append_cancel_left this
        rw [heq3] at hm
        rcases List.mem_cons.mp hm with rfl | hm'
        · intro hcontra
          have : overlapsAt acc pos = true := by
            apply List.any_eq_true.mpr
            refine ⟨a, ha, ?_⟩
            rw [mkMatch_offset] at hcontra
            simpa using hcontra
          rw [hov] at this
          cases this
        · exact ih (acc ++ [mkMatch text cand pos d]) new2 heq2 m hm' hchk
            a (List.mem_append.mpr (Or.inl ha))

theorem tryQuoted_len : ∀ (pr : Option Char) (s : List Char) (c : RawCand),
    tryQuotedAt pr s = some c → 1 ≤ c.len := by
  intro pr s c h
  obtain ⟨tm, sg, rest3, _, _, hlen⟩ := tryQuoted_decomp h
  omega

theorem trySingle_len : ∀ (pr : Option Char) (s : List Char) (c : RawCand),
    trySingleAt pr s = some c → 1 ≤ c.len := by
  intro pr s c h
  obtain ⟨tm, sg, rest2, _, _, _, _, _, hlen⟩ := trySingle_decomp h
  omega

theorem tryGlyph_len : ∀ (pr : Option Char) (s : List Char) (c : RawCand),
    tryGlyphAt pr s = some c → 1 ≤ c.len := by
  intro pr s c h
  obtain ⟨g, sg, rest3, _, _, _, hlen⟩ := tryGlyph_decomp h
  omega

theorem tryRef_len : ∀ (pr : Option Char) (s : List Char) (c : RawCand),
    tryRefAt pr s = some c → 1 ≤ c.len := by
  intro pr s c h
  obtain ⟨sg, rest3, _, _, hlen⟩ := tryRef_decomp h
  omega

theorem offsetToPosition_offset (text : List Char) (q len : Nat) :
    (offsetToPosition text q len).offset = q := rfl

theorem offsetToPosition_length (text : List Char) (q len : Nat) :
    (offsetToPosition text q len).length = len := rfl

/-- One complete-pattern pass with the `alreadyMatched` check preserves
pairwise span-disjointness of the accumulator, given that a new-pattern
match span can never strictly contain the start of an old accumulated
match. -/
theorem pushCands_stage_step (text : List Char)
    (tryAt : Option Char → List Char → Option RawCand)
    (Mold Mk : DotIdMatch → Prop)
    (hlen1 : ∀ (pr : Option Char) (s : List Char) (c : RawCand),
      tryAt pr s = some c → 1 ≤ c.len)
    (hfacts : ∀ (pr : Option Char) (q : Nat) (cand : RawCand) (d : DotId),
      tryAt pr (text.drop q) = some cand → Mk (mkMatch text cand q d))
    (hcross : ∀ a m, Mold a → Mk m →
      ¬(m.position.offset < a.position.offset ∧
        a.position.offset < m.position.offset + m.position.length))
    (acc : List DotIdMatch)
    (hpw : acc.Pairwise SDisj) (hold : ∀ a ∈ acc, Mold a) :
    (pushCands text true acc
      (scanPat tryAt (text.length + 1) none text 0)).Pairwise SDisj ∧
    ∀ m ∈ pushCands text true acc
      (scanPat tryAt (text.length + 1) none text 0), Mold m ∨ Mk m := by
  obtain ⟨new, heq, hprops⟩ :=
    pushCands_spec text true (scanPat tryAt (text.length + 1) none text 0)
      acc
  have hnewfacts : ∀ m ∈ new, Mk m := by
    intro m hm
    obtain ⟨cand, pos, d, hmem, hsig, rfl⟩ := hprops m hm
    obtain ⟨pr, hpr⟩ := scanPat_mem_tryAt hlen1 _ _ _ _ cand pos hmem
    rw [Nat.sub_zero] at hpr
    exact hfacts pr pos cand d hpr
  have hneword : new.Pairwise (fun a b =>
      a.position.offset + a.position.length ≤ b.position.offset) :=
    pushCands_new_pairwise text true _ acc new
      (scanPat_strong_sorted _ _ _ _) heq
  have hcross2 : ∀ a ∈ acc, ∀ m ∈ new, SDisj a m := by
    intro a ha m hm
    refine sdisj_of_checks ?_ ?_
    · exact pushCands_new_not_inside text true _ acc new heq m hm rfl a ha
    · exact hcross a m (hold a ha) (hnewfacts m hm)
  constructor
  · rw [heq]
    refine List.pairwise_append.mpr ⟨hpw, ?_, hcross2⟩
    exact hneword.imp (fun h => Or.inl h)
  · intro m hm
    rw [heq] at hm
    rcases List.mem_append.mp hm with h1 | h2
    · exact Or.inl (hold m h1)
    · exact Or.inr (hnewfacts m h2)

theorem stage1_inv (text : List Char) :
    (stage1 text).Pairwise SDisj ∧ ∀ m ∈ stage1 text, M1facts text m := by
  obtain ⟨new, heq, hprops⟩ :=
    pushCands_spec text false (candsQuoted text) []
  have h1 : stage1 text = new := by
    have h2 : stage1 text = [] ++ new := heq
    simpa using h2
  rw [h1]
  constructor
  · have := pushCands_new_pairwise text false (candsQuoted text) [] new
      (scanPat_strong_sorted _ _ _ _) heq
    exact this.imp (fun h => Or.inl h)
  · intro m hm
    obtain ⟨cand, pos, d, hmem, hsig, rfl⟩ := hprops m hm
    obtain ⟨pr, hpr⟩ := scanPat_mem_tryAt tryQuoted_len _ _ _ _ cand pos hmem
    rw [Nat.sub_zero] at hpr
    exact M1facts_of_try hpr

theorem stage2_inv (text : List Char) :
    (stage2 text).Pairwise SDisj ∧
    ∀ m ∈ stage2 text, M1facts text m ∨ M2facts text m := by
  obtain ⟨hpw, hold⟩ := stage1_inv text
  exact pushCands_stage_step text trySingleAt (M1facts text) (M2facts text)
    trySingle_len (fun pr q cand d h => M2facts_of_try h)
    (fun a m ha hm => no_start_inside wordSpan_not_quote ha.1 hm.2.1)
    (stage1 text) hpw hold

theorem stage3_inv (text : List Char) :
    (stage3 text).Pairwise SDisj ∧
    ∀ m ∈ stage3 text,
      (M1facts text m ∨ M2facts text m) ∨ M3facts text m := by
  obtain ⟨hpw, hold⟩ := stage2_inv text
  exact pushCands_stage_step text tryGlyphAt
    (fun m => M1facts text m ∨ M2facts text m) (M3facts text)
    tryGlyph_len (fun pr q cand d h => M3facts_of_try h)
    (fun a m ha hm => ha.elim
      (fun h1 => no_start_inside glyphSpan_not_quote h1.1 hm.2.2.1)
      (fun h2 => no_start_inside glyphSpan_not_word h2.1 hm.2.2.1))
    (stage2 text) hpw hold

theorem stage4_inv (text : List Char) :
    (stage4 text).Pairwise SDisj ∧
    ∀ m ∈ stage4 text,
      ((M1facts text m ∨ M2facts text m) ∨ M3facts text m) ∨
        M4facts text m := by
  obtain ⟨hpw, hold⟩ := stage3_inv text
  exact pushCands_stage_step text tryRefAt
    (fun m => (M1facts text m ∨ M2facts text m) ∨ M3facts text m)
    (M4facts text) tryRef_len (fun pr q cand d h => M4facts_of_try h)
    (fun a m ha hm => ha.elim
      (fun h12 => h12.elim
        (fun h1 => no_start_inside refSpan_not_quote h1.1 hm.1)
        (fun h2 => no_start_inside refSpan_not_word h2.1 hm.1))
      (fun h3 => no_m3_start_inside_m4 h3 hm))
    (stage3 text) hpw hold

theorem stage4_len (text : List Char) :
    ∀ m ∈ stage4 text, 1 ≤ m.position.length := by
  intro m hm
  rcases (stage4_inv text).2 m hm with ((h | h) | h) | h
  · exact h.2
  · exact h.2.2
  · exact h.2.2.2
  · obtain ⟨-, n, hlen, -⟩ := h
    omega

theorem ltOffM_asymm : ∀ a b, ltOffM a b = true → ltOffM b a = false := by
  intro a b h
  simp only [ltOffM, decide_eq_true_eq] at h
  simp only [ltOffM, decide_eq_false_iff_not]
  omega

theorem ltOffM_negtrans : ∀ a b c, ltOffM b a = false →
    ltOffM c b = false → ltOffM c a = false := by
  intro a b c h1 h2
  simp only [ltOffM, decide_eq_false_iff_not] at h1 h2 ⊢
  omega

theorem parseDotIds_false_sorted_disjoint (text : List Char) :
    (parseDotIds text false).Pairwise (fun a b =>
      a.position.offset + a.position.length ≤ b.position.offset) := by
  have hperm : (parseDotIds text false).Perm (stage4 text) :=
    sortStable_perm ltOffM (stage4 text)
  have hasc : (parseDotIds text false).Pairwise
      (fun a b => ltOffM b a = false) :=
    pairwise_sortStable ltOffM_asymm ltOffM_negtrans (stage4 text)
  have hsd : (parseDotIds text false).Pairwise SDisj :=
    (hperm.pairwise_iff (fun hab => sdisj_symm hab)).mpr (stage4_inv text).1
  refine (hasc.and hsd).imp_of_mem ?_
  intro a b ha hb h
  obtain ⟨h1, h2⟩ := h
  have hlb : 1 ≤ b.position.length := stage4_len text b (hperm.mem_iff.mp hb)
  have h1' : ¬(b.position.offset < a.position.offset) := by
    simpa [ltOffM] using h1
  rcases h2 with h2 | h2
  · exact h2
  · omega

theorem parseCompoundAt_len {cs : List Char} {comp : GlyphCompound}
    {len : Nat} (h : parseCompoundAt cs = some (comp, len)) : 1 ≤ len := by
  simp only [parseCompoundAt] at h
  split at h
  next c hc =>
    injection h with h2
    injection h2 with h3 h4
    omega
  next =>
    split at h
    next c hc =>
      injection h with h2
      injection h2 with h3 h4
      omega
    next => cases h

theorem singleTokenAt_position {text : List Char} {pos : Nat} {c : Char}
    {t : Token} (h : singleTokenAt text pos c = some t) :
    t.position = offsetToPosition text pos 1 := by
  simp only [singleTokenAt] at h
  split at h
  next => injection h with h2; rw [← h2]
  next =>
    split at h
    next => injection h with h2; rw [← h2]
    next => cases h

theorem dotIdToken_position (m : DotIdMatch) :
    (dotIdToken m).position = m.position := by
  unfold dotIdToken
  split
  next => rfl
  next => rfl

theorem scanTok_cons_in {text : List Char} {dms : List DotIdMatch}
    {fuel : Nat} {c : Char} {rest : List Char} {pos : Nat}
    (hin : inDotRanges dms pos = true) :
    scanTok text dms (fuel + 1) (c :: rest) pos =
      scanTok text dms fuel rest (pos + 1) := by
  simp only [scanTok, hin, if_true]

theorem scanTok_cons_comp {text : List Char} {dms : List DotIdMatch}
    {fuel : Nat} {c : Char} {rest : List Char} {pos : Nat}
    {comp : GlyphCompound} {len : Nat}
    (hin : inDotRanges dms pos = false)
    (hcomp : parseCompoundAt (c :: rest) = some (comp, len))
    (hinside : isInsideDotIdRange dms pos len = false) :
    scanTok text dms (fuel + 1) (c :: rest) pos =
      ⟨.compound, comp.symbols, offsetToPosition text pos len,
        some (.compoundVal comp)⟩ ::
        scanTok text dms fuel (rest.drop (len - 1)) (pos + len) := by
  simp only [scanTok, hin, hcomp, hinside]
  rfl

theorem scanTok_cons_comp_single {text : List Char} {dms : List DotIdMatch}
    {fuel : Nat} {c : Char} {rest : List Char} {pos : Nat}
    {comp : GlyphCompound} {len : Nat} {t0 : Token}
    (hin : inDotRanges dms pos = false)
    (hcomp : parseCompoundAt (c :: rest) = some (comp, len))
    (hinside : isInsideDotIdRange dms pos len = true)
    (hsing : singleTokenAt text pos c = some t0) :
    scanTok text dms (fuel + 1) (c :: rest) pos =
      t0 :: scanTok text dms fuel rest (pos + 1) := by
  simp only [scanTok, hin, hcomp, hinside, hsing]
  rfl

theorem scanTok_cons_comp_none {text : List Char} {dms : List DotIdMatch}
    {fuel : Nat} {c : Char} {rest : List Char} {pos : Nat}
    {comp : GlyphCompound} {len : Nat}
    (hin : inDotRanges dms pos = false)
    (hcomp : parseCompoundAt (c :: rest) = some (comp, len))
    (hinside : isInsideDotIdRange dms pos len = true)
    (hsing : singleTokenAt text pos c = none) :
    scanTok text dms (fuel + 1) (c :: rest) pos =
      scanTok text dms fuel rest (pos + 1) := by
  simp only [scanTok, hin, hcomp, hinside, hsing]
  rfl

theorem scanTok_cons_single {text : List Char} {dms : List DotIdMatch}
    {fuel : Nat} {c : Char} {rest : List Char} {pos : Nat} {t0 : Token}
    (hin : inDotRanges dms pos = false)
    (hcomp : parseCompoundAt (c :: rest) = none)
    (hsing : singleTokenAt text pos c = some t0) :
    scanTok text dms (fuel + 1) (c :: rest) pos =
      t0 :: scanTok text dms fuel rest (pos + 1) := by
  simp only [scanTok, hin, hcomp, hsing]
  rfl

theorem scanTok_cons_nosingle {text : List Char} {dms : List DotIdMatch}
    {fuel : Nat} {c : Char} {rest : List Char} {pos : Nat}
    (hin : inDotRanges dms pos = false)
    (hcomp : parseCompoundAt (c :: rest) = none)
    (hsing : singleTokenAt text pos c = none) :
    scanTok text dms (fuel + 1) (c :: rest) pos =
      scanTok text dms fuel rest (pos + 1) := by
  simp only [scanTok, hin, hcomp, hsing]
  rfl

theorem scanTok_emit (text : List Char) (dms : List DotIdMatch) :
    ∀ (fuel : Nat) (cs : List Char) (pos : Nat) (t : Token),
      t ∈ scanTok text dms fuel cs pos →
      pos ≤ t.position.offset ∧ 1 ≤ t.position.length ∧
      ∀ j, j < t.position.length →
        inDotRanges dms (t.position.offset + j) = false := by
  intro fuel
  induction fuel with
  | zero =>
    intro cs pos t ht
    exact absurd ht (List.not_mem_nil t)
  | succ fuel ih =>
    intro cs pos t ht
    cases cs with
    | nil => exact absurd ht (List.not_mem_nil t)
    | cons c rest =>
      by_cases hin : inDotRanges dms pos = true
      · rw [scanTok_cons_in hin] at ht
        have h := ih rest (pos + 1) t ht
        exact ⟨by omega, h.2.1, h.2.2⟩
      · have hin' : inDotRanges dms pos = false := by simpa using hin
        cases hcomp : parseCompoundAt (c :: rest) with
        | some pr =>
          obtain ⟨comp, len⟩ := pr
          by_cases hinside : isInsideDotIdRange dms pos len = true
          · cases hsing : singleTokenAt text pos c with
            | some t0 =>
              rw [scanTok_cons_comp_single hin' hcomp hinside hsing] at ht
              rcases List.mem_cons.mp ht with rfl | ht'
              · have hp := singleTokenAt_position hsing
                refine ⟨?_, ?_, ?_⟩
                · rw [hp, offsetToPosition_offset]
                · rw [hp, offsetToPosition_length]
                · intro j hj
                  rw [hp, offsetToPosition_length] at hj
                  rw [hp, offsetToPosition_offset]
                  have hj0 : j = 0 := by omega
                  subst hj0
                  simpa using hin'
              · have h := ih rest (pos + 1) t ht'
                exact ⟨by omega, h.2.1, h.2.2⟩
            | none =>
              rw [scanTok_cons_comp_none hin' hcomp hinside hsing] at ht
              have h := ih rest (pos + 1) t ht
              exact ⟨by omega, h.2.1, h.2.2⟩
          · have hinside' : isInsideDotIdRange dms pos len = false := by
              simpa using hinside
            rw [scanTok_cons_comp hin' hcomp hinside'] at ht
            rcases List.mem_cons.mp ht with rfl | ht'
            · refine ⟨Nat.le_refl _, parseCompoundAt_len hcomp, ?_⟩
              intro j hj
              by_contra hcon
              have hTrue : inDotRanges dms (pos + j) = true := by
                cases hbv : inDotRanges dms (pos + j) with
                | true => rfl
                | false => exact absurd hbv hcon
              have hins : isInsideDotIdRange dms pos len = true :=
                List.any_eq_true.mpr ⟨j, List.mem_range.mpr hj, hTrue⟩
              rw [hinside'] at hins
              cases hins
            · have h := ih _ (pos + len) t ht'
              exact ⟨by omega, h.2.1, h.2.2⟩
        | none =>
          cases hsing : singleTokenAt text pos c with
          | some t0 =>
            rw [scanTok_cons_single hin' hcomp hsing] at ht
            rcases List.mem_cons.mp ht with rfl | ht'
            · have hp := singleTokenAt_position hsing
              refine ⟨?_, ?_, ?_⟩
              · rw [hp, offsetToPosition_offset]
              · rw [hp, offsetToPosition_length]
              · intro j hj
                rw [hp, offsetToPosition_length] at hj
                rw [hp, offsetToPosition_offset]
                have hj0 : j = 0 := by omega
                subst hj0
                simpa using hin'
            · have h := ih rest (pos + 1) t ht'
              exact ⟨by omega, h.2.1, h.2.2⟩
          | none =>
            rw [scanTok_cons_nosingle hin' hcomp hsing] at ht
            have h := ih rest (pos + 1) t ht
            exact ⟨by omega, h.2.1, h.2.2⟩

theorem scanTok_pairwise (text : List Char) (dms : List DotIdMatch) :
    ∀ (fuel : Nat) (cs : List Char) (pos : Nat),
      (scanTok text dms fuel cs pos).Pairwise (fun a b =>
        a.position.offset + a.position.length ≤ b.position.offset) := by
  intro fuel
  induction fuel with
  | zero => intro cs pos; exact List.Pairwise.nil
  | succ fuel ih =>
    intro cs pos
    cases cs with
    | nil => exact List.Pairwise.nil
    | cons c rest =>
      by_cases hin : inDotRanges dms pos = true
      · rw [scanTok_cons_in hin]
        exact ih rest (pos + 1)
      · have hin' : inDotRanges dms pos = false := by simpa using hin
        cases hcomp : parseCompoundAt (c :: rest) with
        | some pr =>
          obtain ⟨comp, len⟩ := pr
          by_cases hinside : isInsideDotIdRange dms pos len = true
          · cases hsing : singleTokenAt text pos c with
            | some t0 =>
              rw [scanTok_cons_comp_single hin' hcomp hinside hsing]
              refine List.pairwise_cons.mpr ⟨?_, ih rest (pos + 1)⟩
              intro b hb
              have hble := (scanTok_emit text dms fuel rest (pos + 1) b hb).1
              have hp := singleTokenAt_position hsing
              rw [hp, offsetToPosition_offset, offsetToPosition_length]
              omega
            | none =>
              rw [scanTok_cons_comp_none hin' hcomp hinside hsing]
              exact ih rest (pos + 1)
          · have hinside' : isInsideDotIdRange dms pos len = false := by
              simpa using hinside
            rw [scanTok_cons_comp hin' hcomp hinside']
            refine List.pairwise_cons.mpr ⟨?_, ih _ (pos + len)⟩
            intro b hb
            have hble := (scanTok_emit text dms fuel _ (pos + len) b hb).1
            show pos + len ≤ b.position.offset
            exact hble
        | none =>
          cases hsing : singleTokenAt text pos c with
          | some t0 =>
            rw [scanTok_cons_single hin' hcomp hsing]
            refine List.pairwise_cons.mpr ⟨?_, ih rest (pos + 1)⟩
            intro b hb
            have hble := (scanTok_emit text dms fuel rest (pos + 1) b hb).1
            have hp := singleTokenAt_position hsing
            rw [hp, offsetToPosition_offset, offsetToPosition_length]
            omega
          | none =>
            rw [scanTok_cons_nosingle hin' hcomp hsing]
            exact ih rest (pos + 1)

theorem ltOffT_asymm : ∀ a b, ltOffT a b = true → ltOffT b a = false := by
  intro a b h
  simp only [ltOffT, decide_eq_true_eq] at h
  simp only [ltOffT, decide_eq_false_iff_not]
  omega

theorem ltOffT_negtrans : ∀ a b c, ltOffT b a = false →
    ltOffT c b = false → ltOffT c a = false := by
  intro a b c h1 h2
  simp only [ltOffT, decide_eq_false_iff_not] at h1 h2 ⊢
  omega

theorem tdisj_symm {a b : Token} (h : TDisj a b) : TDisj b a := by
  unfold TDisj at h ⊢
  omega

theorem parseDotIds_false_len (text : List Char) :
    ∀ m ∈ parseDotIds text false, 1 ≤ m.position.length := by
  intro m hm
  exact stage4_len text m
    ((sortStable_perm ltOffM (stage4 text)).mem_iff.mp hm)

theorem dot_scan_cross (text : List Char) :
    ∀ ta ∈ (parseDotIds text false).map dotIdToken,
    ∀ tb ∈ scanTok text (parseDotIds text false)
      (text.length + 1) text 0, TDisj ta tb := by
  intro ta hta tb htb
  obtain ⟨m, hm, rfl⟩ := List.mem_map.mp hta
  have hemit := scanTok_emit text (parseDotIds text false)
    (text.length + 1) text 0 tb htb
  by_contra hcon
  rw [TDisj, dotIdToken_position] at hcon
  have h1 : tb.position.offset <
      m.position.offset + m.position.length := by omega
  have h2 : m.position.offset <
      tb.position.offset + tb.position.length := by omega
  by_cases hc : tb.position.offset ≤ m.position.offset
  · have hj : m.position.offset - tb.position.offset <
        tb.position.length := by omega
    have hfalse := hemit.2.2 _ hj
    have heqk : tb.position.offset +
        (m.position.offset - tb.position.offset) =
        m.position.offset := by omega
    rw [heqk] at hfalse
    have hml := parseDotIds_false_len text m hm
    have htrue : inDotRanges (parseDotIds text false)
        m.position.offset = true :=
      List.any_eq_true.mpr ⟨m, hm, by
        simp only [Bool.and_eq_true, decide_eq_true_eq]
        omega⟩
    rw [hfalse] at htrue
    cases htrue
  · have hfalse := hemit.2.2 0 (by omega)
    rw [Nat.add_zero] at hfalse
    have htrue : inDotRanges (parseDotIds text false)
        tb.position.offset = true :=
      List.any_eq_true.mpr ⟨m, hm, by
        simp only [Bool.and_eq_true, decide_eq_true_eq]
        omega⟩
    rw [hfalse] at htrue
    cases htrue

theorem tokenize_pre_pairwise (text : List Char) :
    ((parseDotIds text false).map dotIdToken ++
      scanTok text (parseDotIds text false)
        (text.length + 1) text 0).Pairwise TDisj := by
  refine List.pairwise_append.mpr ⟨?_, ?_, dot_scan_cross text⟩
  · refine List.pairwise_map.mpr
      ((parseDotIds_false_sorted_disjoint text).imp ?_)
    intro a b h
    rw [TDisj, dotIdToken_position, dotIdToken_position]
    exact Or.inl h
  · exact (scanTok_pairwise text (parseDotIds text false)
      (text.length + 1) text 0).imp (fun h => Or.inl h)

theorem tokenize_pre_len (text : List Char) :
    ∀ t ∈ (parseDotIds text false).map dotIdToken ++
      scanTok text (parseDotIds text false)
        (text.length + 1) text 0, 1 ≤ t.position.length := by
  intro t ht
  rcases List.mem_append.mp ht with h1 | h2
  · obtain ⟨m, hm, rfl⟩ := List.mem_map.mp h1
    rw [dotIdToken_position]
    exact parseDotIds_false_len text m hm
  · exact (scanTok_emit text (parseDotIds text false)
      (text.length + 1) text 0 t h2).2.1

theorem tokenize_sorted_disjoint (text : List Char) :
    (tokenize text).Pairwise (fun a b =>
      a.position.offset + a.position.length ≤ b.position.offset) := by
  have hperm : (tokenize text).Perm
      ((parseDotIds text false).map dotIdToken ++
        scanTok text (parseDotIds text false)
          (text.length + 1) text 0) :=
    sortStable_perm ltOffT _
  have hasc : (tokenize text).Pairwise
      (fun a b => ltOffT b a = false) :=
    pairwise_sortStable ltOffT_asymm ltOffT_negtrans _
  have hsd : (tokenize text).Pairwise TDisj :=
    (hperm.pairwise_iff (fun hab => tdisj_symm hab)).mpr
      (tokenize_pre_pairwise text)
  refine (hasc.and hsd).imp_of_mem ?_
  intro a b ha hb h
  obtain ⟨h1, h2⟩ := h
  have hlb : 1 ≤ b.position.length :=
    tokenize_pre_len text b (hperm.mem_iff.mp hb)
  have h1' : ¬(b.position.offset < a.position.offset) := by
    simpa [ltOffT] using h1
  rcases h2 with h2 | h2
  · exact h2
  · omega

/-- C3 counterexample.  In `includeIncomplete` mode the match list can
contain overlapping spans and fail to be sorted by span end: on the text
`" a{•} b"{••` the incomplete quoted pattern matches the whole text
(offset 0, length 12) even though the complete single-word pattern
already matched `a{•}` at offset 2, because the `alreadyMatched` check
only tests containment of the new match's start offset. -/
theorem include_incomplete_overlap_counterexample :
    ¬ (parseDotIds
        ('"' :: ' ' :: 'a' :: '{' :: '•' :: '}' :: ' ' :: 'b' :: '"' ::
          '{' :: '•' :: '•' :: []) true).Pairwise
      (fun a b =>
        a.position.offset + a.position.length ≤ b.position.offset) := by
  decide

/-- C3 (amended).  For every input text, the match list returned by
`parseDotIds` in complete mode (`includeIncomplete = false`, the default
and the mode `tokenize` uses) and the token list returned by `tokenize`
both have pairwise non-overlapping spans sorted by ascending offset:
each element's span ends at or before the next element's span starts. -/
theorem complete_parse_and_tokenize_sorted_disjoint (text : List Char) :
    ((parseDotIds text false).Pairwise (fun a b =>
      a.position.offset + a.position.length ≤ b.position.offset)) ∧
    ((tokenize text).Pairwise (fun a b =>
      a.position.offset + a.position.length ≤ b.position.offset)) :=
  ⟨parseDotIds_false_sorted_disjoint text, tokenize_sorted_disjoint text⟩

theorem pushCands_dotId_mem (text : List Char) (chk : Bool)
    (cs : List (RawCand × Nat)) (acc : List DotIdMatch)
    (hacc : ∀ a ∈ acc, a.dotId ∈ DOT_IDS) :
    ∀ m ∈ pushCands text chk acc cs, m.dotId ∈ DOT_IDS := by
  intro m hm
  obtain ⟨new, heq, hprops⟩ := pushCands_spec text chk cs acc
  rw [heq] at hm
  rcases List.mem_append.mp hm with h1 | h2
  · exact hacc m h1
  · obtain ⟨cand, pos, d, -, hsig, rfl⟩ := hprops m h2
    exact List.mem_of_find?_eq_some hsig

theorem stage4_dotId_mem (text : List Char) :
    ∀ m ∈ stage4 text, m.dotId ∈ DOT_IDS := by
  have h0 : ∀ a ∈ ([] : List DotIdMatch), a.dotId ∈ DOT_IDS := by
    intro a ha
    cases ha
  have h1 := pushCands_dotId_mem text false (candsQuoted text) [] h0
  have h2 := pushCands_dotId_mem text true (candsSingle text)
    (stage1 text) h1
  have h3 := pushCands_dotId_mem text true (candsGlyph text)
    (stage2 text) h2
  exact pushCands_dotId_mem text true (candsRef text) (stage3 text) h3

theorem stage7_dotId_mem (text : List Char) :
    ∀ m ∈ stage7 text, m.dotId ∈ DOT_IDS := by
  have h5 := pushCands_dotId_mem text true (candsIncSingle text)
    (stage4 text) (stage4_dotId_mem text)
  have h6 := pushCands_dotId_mem text true (candsIncQuoted text)
    (pushCands text true (stage4 text) (candsIncSingle text)) h5
  exact pushCands_dotId_mem text true (candsIncGlyph text)
    (pushCands text true
      (pushCands text true (stage4 text) (candsIncSingle text))
      (candsIncQuoted text)) h6

theorem parseDotIds_dotId_mem :
    ∀ (text : List Char) (b : Bool) (m : DotIdMatch),
      m ∈ parseDotIds text b → m.dotId ∈ DOT_IDS := by
  intro text b m hm
  unfold parseDotIds at hm
  have hmem := (sortStable_perm ltOffM _).mem_iff.mp hm
  cases b with
  | true =>
    rw [if_pos rfl] at hmem
    exact stage7_dotId_mem text m hmem
  | false =>
    rw [if_neg Bool.false_ne_true] at hmem
    exact stage4_dotId_mem text m hmem

theorem scanPat_fuel_high
    {tryAt : Option Char → List Char → Option RawCand}
    (hlen : ∀ (pr : Option Char) (s : List Char) (c : RawCand),
      tryAt pr s = some c → 1 ≤ c.len) :
    ∀ (n : Nat) (cs : List Char), cs.length ≤ n →
      ∀ (fuel fuel' : Nat) (prev : Option Char) (pos : Nat),
        cs.length < fuel → cs.length < fuel' →
        scanPat tryAt fuel prev cs pos = scanPat tryAt fuel' prev cs pos := by
  intro n
  induction n with
  | zero =>
    intro cs hcs fuel fuel' prev pos h1 h2
    have hnil : cs = [] := List.length_eq_zero.mp (by omega)
    subst hnil
    cases fuel with
    | zero => omega
    | succ f =>
      cases fuel' with
      | zero => omega
      | succ f' => rfl
  | succ n ih =>
    intro cs hcs fuel fuel' prev pos h1 h2
    cases cs with
    | nil =>
      cases fuel with
      | zero => omega
      | succ f =>
        cases fuel' with
        | zero => omega
        | succ f' => rfl
    | cons c rest =>
      cases fuel with
      | zero => simp at h1
      | succ f =>
        cases fuel' with
        | zero => simp at h2
        | succ f' =>
          rw [scanPat, scanPat]
          cases htry : tryAt prev (c :: rest) with
          | some cand =>
            show (cand, pos) :: scanPat tryAt f
                (((c :: rest).take cand.len).getLast?)
                (rest.drop (cand.len - 1)) (pos + cand.len) =
              (cand, pos) :: scanPat tryAt f'
                (((c :: rest).take cand.len).getLast?)
                (rest.drop (cand.len - 1)) (pos + cand.len)
            have hc1 : 1 ≤ cand.len := hlen _ _ _ htry
            congr 1
            apply ih
            · rw [List.length_drop]
              simp only [List.length_cons] at hcs
              omega
            · rw [List.length_drop]
              simp only [List.length_cons] at h1
              omega
            · rw [List.length_drop]
              simp only [List.length_cons] at h2
              omega
          | none =>
            show scanPat tryAt f (some c) rest (pos + 1) =
              scanPat tryAt f' (some c) rest (pos + 1)
            apply ih
            · simp only [List.length_cons] at hcs
              omega
            · simp only [List.length_cons] at h1
              omega
            · simp only [List.length_cons] at h2
              omega

/-- C7.  The pipeline is total on every input: an unknown signature makes
the codec lookup return `none` rather than fail; every match that
`parseDotIds` emits (in either mode) carries one of the ten real
`DotId`s; the scanners' fuel never cuts a scan short (any fuel above the
text length gives the same pass results, so each pass is a terminating
function of the text alone); and the empty string flows through
`parseDotIds`, `tokenize` and `parse` producing empty, error-free
results. -/
theorem pipeline_total_on_all_inputs :
    (∀ s : List Char, (∀ d ∈ DOT_IDS, d.signature ≠ s) →
      getDotIdBySignature s = none) ∧
    (∀ (text : List Char) (b : Bool) (m : DotIdMatch),
      m ∈ parseDotIds text b → m.dotId ∈ DOT_IDS) ∧
    (∀ (text : List Char) (fuel : Nat), text.length < fuel →
      scanPat tryQuotedAt fuel none text 0 = candsQuoted text ∧
      scanPat trySingleAt fuel none text 0 = candsSingle text ∧
      scanPat tryGlyphAt fuel none text 0 = candsGlyph text ∧
      scanPat tryRefAt fuel none text 0 = candsRef text) ∧
    (∀ b : Bool, parseDotIds [] b = []) ∧
    tokenize [] = [] ∧ (parse []).errors = [] := by
  refine ⟨?_, parseDotIds_dotId_mem, ?_, ?_, rfl, rfl⟩
  · intro s hs
    apply List.find?_eq_none.mpr
    intro d hd
    simpa using hs d hd
  · intro text fuel hfuel
    exact ⟨scanPat_fuel_high tryQuoted_len text.length text (Nat.le_refl _)
        fuel (text.length + 1) none 0 hfuel (by omega),
      scanPat_fuel_high trySingle_len text.length text (Nat.le_refl _)
        fuel (text.length + 1) none 0 hfuel (by omega),
      scanPat_fuel_high tryGlyph_len text.length text (Nat.le_refl _)
        fuel (text.length + 1) none 0 hfuel (by omega),
      scanPat_fuel_high tryRef_len text.length text (Nat.le_refl _)
        fuel (text.length + 1) none 0 hfuel (by omega)⟩
  · intro b
    cases b <;> rfl

/-- C7 witness: the theorem applied at concrete inputs — the unknown
four-dot signature decodes to `none`; the one match parsed from `a{•}`
carries a real `DotId`; fuel 9 gives the same quoted-pattern pass over
`a` as the canonical fuel. -/
theorem pipeline_total_on_all_inputs_witness :
    getDotIdBySignature ('•' :: '•' :: '•' :: '•' :: []) = none ∧
    (⟨['a', '{', '•', '}'], some ['a'], none, ⟨1, ['•'], ['•'], false⟩,
      ⟨0, 0, 0, 4⟩, AttachmentType.term⟩ : DotIdMatch).dotId ∈ DOT_IDS ∧
    scanPat tryQuotedAt 9 none ('a' :: []) 0 = candsQuoted ('a' :: []) := by
  refine ⟨?_, ?_, ?_⟩
  · exact pipeline_total_on_all_inputs.1 _ (by decide)
  · exact pipeline_total_on_all_inputs.2.1 ('a' :: '{' :: '•' :: '}' :: [])
      false _ (by decide)
  · exact (pipeline_total_on_all_inputs.2.2.1 ('a' :: []) 9 (by decide)).1

end Semantica